import Mathlib

/-!
Shallow embedding of the vuln-demo scan reconciliation and drift-analysis
pipeline (`scripts/merge-scan-results.py`, `scripts/scan.py`,
`scripts/compare.py`), together with theorems settling the specification
claims about it.

Conventions of the embedding:
* Python strings are `String`; Python string truthiness (`if s`) is `s ≠ ""`.
* JSON numbers used as counts are `Nat` (scanner counters) or `Int`
  (drift deltas, which may be negative); CVSS scores are `ℚ`.
* A JSON key that may be absent is an `Option`; `dict.get(k, d)` is
  `Option.getD`.
* Python's `str.upper`, `str.split` and string comparison are re-expressed
  as structural recursion over the character list so that they evaluate
  inside the kernel; they agree with Python on the ASCII data the scripts
  handle.
-/

/-! ### String helpers (Python `str` operations) -/

/-- Python `str.upper` (ASCII). -/
def upperAscii (s : String) : String := ⟨s.data.map Char.toUpper⟩

/-- Python `str.lower` (ASCII). -/
def lowerAscii (s : String) : String := ⟨s.data.map Char.toLower⟩

/-- Python `str.split(sep)` on character lists: `"a//b"` splits to
`["a", "", "b"]`, and the empty string splits to `[""]`. -/
def splitChar : List Char → Char → List (List Char)
  | [], _ => [[]]
  | c :: rest, sep =>
    match splitChar rest sep with
    | [] => [[]]
    | h :: t => if c = sep then [] :: h :: t else (c :: h) :: t

/-- Python `<=` on strings: lexicographic comparison by code point. -/
def charListLe : List Char → List Char → Bool
  | [], _ => true
  | _ :: _, [] => false
  | a :: as, b :: bs =>
    if a.toNat < b.toNat then true
    else if b.toNat < a.toNat then false
    else charListLe as bs

def strLe (a b : String) : Bool := charListLe a.data b.data

/-- Python `sorted` on a list of strings (ascending). -/
def sortStrings (l : List String) : List String :=
  l.insertionSort (fun a b => strLe a b = true)

/-! ### Insertion-ordered dictionaries

Python `dict`s keep insertion order; the scripts use them as string- or
tuple-keyed maps.  A dict is modelled as its entry list in insertion
order, with unique keys. -/

/-- `d[k] = v`: replace the value at an existing key in place, or append a
fresh entry. -/
def dictInsert {α β : Type} [DecidableEq α] (m : List (α × β)) (k : α) (v : β) :
    List (α × β) :=
  match m with
  | [] => [(k, v)]
  | (k', v') :: t => if k' = k then (k, v) :: t else (k', v') :: dictInsert t k v

/-- `d.get(k)` (keys are unique, so the first hit is the entry). -/
def dictGet? {α β : Type} [DecidableEq α] (m : List (α × β)) (k : α) : Option β :=
  match m with
  | [] => none
  | (k', v') :: t => if k' = k then some v' else dictGet? t k

/-! ### `merge-scan-results.py` -/

/-- `normalize_severity` (merge-scan-results.py line 11):
`severity.upper() if severity else "UNKNOWN"`.  An empty (falsy) string is
mapped to `"UNKNOWN"`; any other string is uppercased. -/
def normalize_severity (severity : String) : String :=
  if severity ≠ "" then upperAscii severity else "UNKNOWN"

/-- One value of Trivy's `CVSS` map (`vuln["CVSS"][source]`): the scores and
vectors a single data source may carry.  `none` models an absent key. -/
structure CvssSource where
  v2score : Option ℚ := none
  v3score : Option ℚ := none
  v2vector : Option String := none
  v3vector : Option String := none
deriving Repr, DecidableEq

/-- Python truthiness of the `cvss_v2_score` / `cvss_v3_score` accumulators:
`None` and `0` are falsy. -/
def truthyQ (o : Option ℚ) : Bool :=
  match o with
  | none => false
  | some q => q ≠ 0

/-- Python truthiness of the `cvss_vector` accumulator: `None` and `""` are
falsy. -/
def truthyS (o : Option String) : Bool :=
  match o with
  | none => false
  | some s => s ≠ ""

/-- Accumulator state of the `for source_data in cvss_data.values()` loop in
`parse_trivy_results` (lines 31-40). -/
structure CvssAcc where
  cvss_v2_score : Option ℚ := none
  cvss_v3_score : Option ℚ := none
  cvss_vector : Option String := none
deriving Repr, DecidableEq

/-- One iteration of the CVSS source loop (lines 32-40): each field is
filled from the current source only when the accumulated value is falsy;
for the vector a `V3Vector` key of the same source is preferred over its
`V2Vector` key (`if`/`elif`). -/
def cvssStep (acc : CvssAcc) (src : CvssSource) : CvssAcc :=
  let v2 := if ¬truthyQ acc.cvss_v2_score ∧ src.v2score.isSome then
      src.v2score else acc.cvss_v2_score
  let v3 := if ¬truthyQ acc.cvss_v3_score ∧ src.v3score.isSome then
      src.v3score else acc.cvss_v3_score
  let vec :=
    if ¬truthyS acc.cvss_vector ∧ src.v3vector.isSome then src.v3vector
    else if ¬truthyS acc.cvss_vector ∧ src.v2vector.isSome then src.v2vector
    else acc.cvss_vector
  { cvss_v2_score := v2, cvss_v3_score := v3, cvss_vector := vec }

/-- The whole CVSS source loop.  The Python iterates over
`cvss_data.values()` in insertion order; the map is modelled as the list of
its values in that order (its keys — the data-source names — are never
consulted). -/
def extractCvss (sources : List CvssSource) : CvssAcc :=
  sources.foldl cvssStep {}

/-- One entry of Trivy's `Results[*].Vulnerabilities` array. -/
structure TrivyVuln where
  vulnerabilityID : String := ""
  pkgName : String := ""
  installedVersion : String := ""
  severity : String := ""
  title : String := ""
  description : String := ""
  fixedVersion : String := ""
  cvss : List CvssSource := []
  references : List String := []
deriving Repr, DecidableEq

/-- One entry of Trivy's `Results` array. -/
structure TrivyResult where
  target : String := ""
  rtype : String := ""
  vulnerabilities : List TrivyVuln := []
deriving Repr, DecidableEq

/-- The normalized finding dictionary built by `parse_trivy_results` /
`parse_grype_results` and consumed by `merge_vulnerabilities`.
`found_by` models the `"found_by"` key, which is absent (`[]`) until
`merge_vulnerabilities` assigns it. -/
structure Finding where
  id : String := ""
  package : String := ""
  version : String := ""
  severity : String := ""
  title : String := ""
  description : String := ""
  fixed_version : String := ""
  cvss_score : Option ℚ := none
  cvss_v2_score : Option ℚ := none
  cvss_v3_score : Option ℚ := none
  cvss_vector : Option String := none
  references : List String := []
  target : String := ""
  vtype : String := ""
  source : String := ""
  found_by : List String := []
deriving Repr, DecidableEq

/-- `parse_trivy_results` (lines 15-64) restricted to one vulnerability
entry: extract the CVSS fields and build the normalized dictionary.
`cvss_score = cvss_v3_score or cvss_v2_score` returns the v3 score when it
is truthy and the v2 score otherwise. -/
def normalizeTrivyVuln (target rtype : String) (v : TrivyVuln) : Finding :=
  let acc := extractCvss v.cvss
  { id := v.vulnerabilityID
    package := v.pkgName
    version := v.installedVersion
    severity := normalize_severity v.severity
    title := v.title
    description := v.description
    fixed_version := v.fixedVersion
    cvss_score := if truthyQ acc.cvss_v3_score then acc.cvss_v3_score
      else acc.cvss_v2_score
    cvss_v2_score := acc.cvss_v2_score
    cvss_v3_score := acc.cvss_v3_score
    cvss_vector := acc.cvss_vector
    references := v.references
    target := target
    vtype := rtype
    source := "trivy" }

/-- `parse_trivy_results` (lines 15-64): flatten all `Results` entries. -/
def parse_trivy_results (results : List TrivyResult) : List Finding :=
  results.flatMap (fun r =>
    r.vulnerabilities.map (normalizeTrivyVuln r.target r.rtype))

/-- `create_vuln_key` (lines 96-103): `(id, package.lower(), version)`. -/
def create_vuln_key (v : Finding) : String × String × String :=
  (v.id, lowerAscii v.package, v.version)

/-- The key type of the `merged` dictionary. -/
abbrev VulnKey := String × String × String

/-- A reference to a finding dictionary object: `merged` stores aliases of
the input dictionaries, so an entry is a position in the first (trivy) or
second (grype) input sequence. -/
abbrev MergeRef := Sum Nat Nat

/-- State of `merge_vulnerabilities` while it runs: the current values of
the (mutable, aliased) finding dictionaries of both input sequences, the
insertion-ordered `merged` dictionary holding references into them, and the
incrementally maintained counters. -/
structure MergeState where
  trivyObjs : List Finding
  grypeObjs : List Finding
  merged : List (VulnKey × MergeRef)
  both : Nat
  grype_only : Nat
deriving Repr, DecidableEq

/-- Read the finding dictionary a `merged` entry refers to. -/
def MergeState.deref (st : MergeState) (r : MergeRef) : Finding :=
  match r with
  | Sum.inl i => st.trivyObjs.getD i {}
  | Sum.inr j => st.grypeObjs.getD j {}

/-- Write through a reference (in-place mutation of the aliased object). -/
def MergeState.write (st : MergeState) (r : MergeRef) (f : Finding) : MergeState :=
  match r with
  | Sum.inl i => { st with trivyObjs := st.trivyObjs.set i f }
  | Sum.inr j => { st with grypeObjs := st.grypeObjs.set j f }

/-- Dedup-union of the `references` lists,
`list(set(existing) | set(new))` (lines 138-140).  Python's set union has
no specified order; it is modelled as the insertion-ordered union, which
has the same elements. -/
def unionRefs (a b : List String) : List String :=
  a.dedup ++ (b.dedup.filter (fun x => x ∉ a.dedup))

/-- The duplicate-merge branch of `merge_vulnerabilities` (lines 124-145),
applied to the current value `existing` of the stored dictionary and the
incoming grype finding `vuln`: append `"grype"` to `found_by`, keep the
longer description, fill an empty `fixed_version`, union the references.
CVSS fields are left as they are (lines 142-143). -/
def mergeInto (existing vuln : Finding) : Finding :=
  let e1 := { existing with found_by := existing.found_by ++ ["grype"] }
  let e2 := if vuln.description.length > e1.description.length then
      { e1 with description := vuln.description } else e1
  let e3 := if e2.fixed_version = "" ∧ vuln.fixed_version ≠ "" then
      { e2 with fixed_version := vuln.fixed_version } else e2
  { e3 with references := unionRefs e3.references vuln.references }

/-- First loop of `merge_vulnerabilities` (lines 114-118): for the trivy
finding at position `i`, set its `found_by` to `["trivy"]` (an in-place
assignment on the input object) and store a reference to it under its key.
`f` is the object's value when the loop reaches it, which is its input
value (the loop touches no object before reaching it). -/
def trivyStep (st : MergeState) (i : Nat) (f : Finding) : MergeState :=
  { st with
    trivyObjs := st.trivyObjs.set i { f with found_by := ["trivy"] }
    merged := dictInsert st.merged (create_vuln_key f) (Sum.inl i) }

def trivyPassFrom (st : MergeState) (i : Nat) : List Finding → MergeState
  | [] => st
  | f :: rest => trivyPassFrom (trivyStep st i f) (i + 1) rest

/-- Second loop of `merge_vulnerabilities` (lines 121-150): for the grype
finding at position `j`, either merge it into the referenced existing
object in place, or tag it `found_by = ["grype"]` (in place) and store a
reference to it. -/
def grypeStep (st : MergeState) (j : Nat) (vuln : Finding) : MergeState :=
  let key := create_vuln_key vuln
  match dictGet? st.merged key with
  | some r =>
    let st' := st.write r (mergeInto (st.deref r) vuln)
    { st' with both := st'.both + 1 }
  | none =>
    { st with
      grypeObjs := st.grypeObjs.set j { vuln with found_by := ["grype"] }
      merged := st.merged ++ [(key, Sum.inr j)]
      grype_only := st.grype_only + 1 }

def grypePassFrom (st : MergeState) (j : Nat) : List Finding → MergeState
  | [] => st
  | f :: rest => grypePassFrom (grypeStep st j f) (j + 1) rest

/-- Result of `merge_vulnerabilities`: the merged list, the three stats
counters, and the final values of the two input sequences' objects (which
the call mutates). -/
structure MergeResult where
  mergedList : List Finding
  trivy_only : Nat
  grype_only : Nat
  both : Nat
  trivyFinal : List Finding
  grypeFinal : List Finding
deriving Repr, DecidableEq

/-- `merge_vulnerabilities` (lines 105-155).  `trivy_only` is recomputed at
the end (line 153) as the number of stored entries whose `found_by` is
exactly `["trivy"]`; the returned list is `list(merged.values())` in
insertion order. -/
def merge_vulnerabilities (trivy_vulns grype_vulns : List Finding) : MergeResult :=
  let st0 : MergeState :=
    { trivyObjs := trivy_vulns, grypeObjs := grype_vulns
      merged := [], both := 0, grype_only := 0 }
  let st1 := trivyPassFrom st0 0 trivy_vulns
  let st2 := grypePassFrom st1 0 grype_vulns
  let values := st2.merged.map (fun e => st2.deref e.2)
  { mergedList := values
    trivy_only := (values.filter (fun v => v.found_by = ["trivy"])).length
    grype_only := st2.grype_only
    both := st2.both
    trivyFinal := st2.trivyObjs
    grypeFinal := st2.grypeObjs }

/-! ### Severity / snapshot data model (shared by `scan.py` and `compare.py`) -/

/-- The fixed six-severity enumeration the scripts iterate over
(`["critical", "high", "medium", "low", "negligible", "unknown"]`). -/
inductive Severity
  | critical | high | medium | low | negligible | unknown
deriving Repr, DecidableEq

def severityList : List Severity :=
  [.critical, .high, .medium, .low, .negligible, .unknown]

/-- The severity key strings as they appear in the JSON. -/
def sevName : Severity → String
  | .critical => "critical"
  | .high => "high"
  | .medium => "medium"
  | .low => "low"
  | .negligible => "negligible"
  | .unknown => "unknown"

/-- A severity-count JSON object: the six severity keys plus the derived
`"total"` key (`tot` here).  A key missing from the JSON reads as `0`,
which is how every consumer accesses these objects (`d.get(sev, 0)`), so
the object is modelled by its readout. -/
structure SevBlock where
  critical : Int := 0
  high : Int := 0
  medium : Int := 0
  low : Int := 0
  negligible : Int := 0
  unknown : Int := 0
  tot : Int := 0
deriving Repr, DecidableEq

def SevBlock.get (b : SevBlock) : Severity → Int
  | .critical => b.critical
  | .high => b.high
  | .medium => b.medium
  | .low => b.low
  | .negligible => b.negligible
  | .unknown => b.unknown

/-- The three aggregation levels (`["os_level", "app_level", "total"]`). -/
inductive Level
  | os_level | app_level | total
deriving Repr, DecidableEq

def levelList : List Level := [.os_level, .app_level, .total]

/-- One entry of a snapshot's `images` array. -/
structure ImageEntry where
  image : String := ""
  os_level : SevBlock := {}
  app_level : SevBlock := {}
  total : SevBlock := {}
deriving Repr, DecidableEq

def ImageEntry.block (e : ImageEntry) : Level → SevBlock
  | .os_level => e.os_level
  | .app_level => e.app_level
  | .total => e.total

/-- A snapshot's `summary` object. -/
structure Summary where
  os_level : SevBlock := {}
  app_level : SevBlock := {}
  total : SevBlock := {}
deriving Repr, DecidableEq

def Summary.block (s : Summary) : Level → SevBlock
  | .os_level => s.os_level
  | .app_level => s.app_level
  | .total => s.total

/-- The snapshot JSON written by `scan.py` and read by `compare.py`. -/
structure Snapshot where
  timestamp : Option String := none
  images : List ImageEntry := []
  summary : Summary := {}
deriving Repr, DecidableEq

/-! ### `scan.py` -/

/-- `VulnerabilityStats` (scan.py lines 19-30). -/
structure VulnerabilityStats where
  critical : Nat := 0
  high : Nat := 0
  medium : Nat := 0
  low : Nat := 0
  negligible : Nat := 0
  unknown : Nat := 0
deriving Repr, DecidableEq

def VulnerabilityStats.total (s : VulnerabilityStats) : Nat :=
  s.critical + s.high + s.medium + s.low + s.negligible + s.unknown

def VulnerabilityStats.get (s : VulnerabilityStats) : Severity → Nat
  | .critical => s.critical
  | .high => s.high
  | .medium => s.medium
  | .low => s.low
  | .negligible => s.negligible
  | .unknown => s.unknown

/-- One entry of grype's `matches` array, reduced to the two fields
`process_grype_results` reads: `vulnerability.severity` (default
`'unknown'` when absent) and `artifact.type` (default `''` when absent). -/
structure GrypeMatch where
  severity : Option String := none
  artifactType : Option String := none
deriving Repr, DecidableEq

/-- The OS-level package-type set of `categorize_vulnerability`
(scan.py line 135), written as in the source (`'rpm'` appears twice in the
set literal). -/
def os_level_types : List String := ["deb", "rpm", "apk", "jar", "rpm"]

/-- The application-level package-type set (scan.py line 138). -/
def app_level_types : List String :=
  ["npm", "pip", "gem", "maven", "composer", "cargo", "nuget", "go"]

/-- `categorize_vulnerability` (scan.py lines 127-146): returns
`(category, package_type)`; an unrecognized type falls through to
`app_level`. -/
def categorize_vulnerability (m : GrypeMatch) : String × String :=
  let package_type := lowerAscii (m.artifactType.getD "")
  if package_type ∈ os_level_types then ("os_level", package_type)
  else if package_type ∈ app_level_types then ("app_level", package_type)
  else ("app_level", package_type)

/-- The severity `if`/`elif` chain of `process_grype_results`
(lines 169-180): increment exactly one counter, with the final `else`
falling through to `unknown`. -/
def bumpSeverity (stats : VulnerabilityStats) (severity : String) : VulnerabilityStats :=
  if severity = "critical" then { stats with critical := stats.critical + 1 }
  else if severity = "high" then { stats with high := stats.high + 1 }
  else if severity = "medium" then { stats with medium := stats.medium + 1 }
  else if severity = "low" then { stats with low := stats.low + 1 }
  else if severity = "negligible" then { stats with negligible := stats.negligible + 1 }
  else { stats with unknown := stats.unknown + 1 }

/-- One iteration of the `for vuln in matches` loop (lines 159-180). -/
def processMatch (acc : VulnerabilityStats × VulnerabilityStats) (m : GrypeMatch) :
    VulnerabilityStats × VulnerabilityStats :=
  let severity := lowerAscii (m.severity.getD "unknown")
  let category := (categorize_vulnerability m).1
  if category = "os_level" then (bumpSeverity acc.1 severity, acc.2)
  else (acc.1, bumpSeverity acc.2 severity)

/-- `process_grype_results` (scan.py lines 149-182): returns
`(os_level_stats, app_level_stats)`. -/
def process_grype_results (matchList : List GrypeMatch) :
    VulnerabilityStats × VulnerabilityStats :=
  matchList.foldl processMatch ({}, {})

/-- `ImageVulnerabilities` (scan.py lines 33-38). -/
structure ImageVulnerabilities where
  image_name : String := ""
  os_level : VulnerabilityStats := {}
  app_level : VulnerabilityStats := {}
deriving Repr, DecidableEq

/-- The `os_level` / `app_level` JSON objects written per image by
`save_results_to_json` (lines 195-212): the six counters plus the
recomputed `total()`. -/
def blockOfStats (s : VulnerabilityStats) : SevBlock :=
  { critical := s.critical, high := s.high, medium := s.medium,
    low := s.low, negligible := s.negligible, unknown := s.unknown,
    tot := s.total }

/-- The per-image `total` JSON object (lines 213-221): each severity is
recomputed as `os_level + app_level`. -/
def totalBlockOf (r : ImageVulnerabilities) : SevBlock :=
  { critical := r.os_level.critical + r.app_level.critical
    high := r.os_level.high + r.app_level.high
    medium := r.os_level.medium + r.app_level.medium
    low := r.os_level.low + r.app_level.low
    negligible := r.os_level.negligible + r.app_level.negligible
    unknown := r.os_level.unknown + r.app_level.unknown
    tot := r.os_level.total + r.app_level.total }

/-- `save_results_to_json` (scan.py lines 185-261) as a pure function of
the results list; the wall-clock timestamp and the file write are the
I/O boundary and are passed in / returned. -/
def save_results_to_json (ts : String) (results : List ImageVulnerabilities) : Snapshot :=
  { timestamp := some ts
    images := results.map (fun r =>
      { image := r.image_name
        os_level := blockOfStats r.os_level
        app_level := blockOfStats r.app_level
        total := totalBlockOf r })
    summary :=
      { os_level :=
          { critical := (results.map (fun r => (r.os_level.critical : Int))).sum
            high := (results.map (fun r => (r.os_level.high : Int))).sum
            medium := (results.map (fun r => (r.os_level.medium : Int))).sum
            low := (results.map (fun r => (r.os_level.low : Int))).sum
            negligible := (results.map (fun r => (r.os_level.negligible : Int))).sum
            unknown := (results.map (fun r => (r.os_level.unknown : Int))).sum
            tot := (results.map (fun r => (r.os_level.total : Int))).sum }
        app_level :=
          { critical := (results.map (fun r => (r.app_level.critical : Int))).sum
            high := (results.map (fun r => (r.app_level.high : Int))).sum
            medium := (results.map (fun r => (r.app_level.medium : Int))).sum
            low := (results.map (fun r => (r.app_level.low : Int))).sum
            negligible := (results.map (fun r => (r.app_level.negligible : Int))).sum
            unknown := (results.map (fun r => (r.app_level.unknown : Int))).sum
            tot := (results.map (fun r => (r.app_level.total : Int))).sum }
        total :=
          { critical := (results.map (fun r => ((r.os_level.critical + r.app_level.critical : Nat) : Int))).sum
            high := (results.map (fun r => ((r.os_level.high + r.app_level.high : Nat) : Int))).sum
            medium := (results.map (fun r => ((r.os_level.medium + r.app_level.medium : Nat) : Int))).sum
            low := (results.map (fun r => ((r.os_level.low + r.app_level.low : Nat) : Int))).sum
            negligible := (results.map (fun r => ((r.os_level.negligible + r.app_level.negligible : Nat) : Int))).sum
            unknown := (results.map (fun r => ((r.os_level.unknown + r.app_level.unknown : Nat) : Int))).sum
            tot := (results.map (fun r => ((r.os_level.total + r.app_level.total : Nat) : Int))).sum } } }

/-! ### `compare.py` -/

/-- `{img["image"]: img for img in snapshot.get("images", [])}`
(compare.py lines 65-66): later entries with the same identifier win. -/
def imagesDict (imgs : List ImageEntry) : List (String × ImageEntry) :=
  imgs.foldl (fun m img => dictInsert m img.image img) []

/-- `sorted(set(prev_images.keys()) | set(curr_images.keys()))`
(compare.py lines 69-71). -/
def allImageKeys (prev curr : List (String × ImageEntry)) : List String :=
  sortStrings ((prev.map (fun e => e.1)) ++ (curr.map (fun e => e.1))).dedup

/-- The per-severity subtraction loops of `calculate_diff`
(lines 90-106 and 124-126): `curr.get(sev, 0) - prev.get(sev, 0)` for the
six severities.  The change objects carry no `"total"` key (`tot := 0`). -/
def diffBlock (p c : SevBlock) : SevBlock :=
  { critical := c.critical - p.critical
    high := c.high - p.high
    medium := c.medium - p.medium
    low := c.low - p.low
    negligible := c.negligible - p.negligible
    unknown := c.unknown - p.unknown
    tot := 0 }

/-- One element of the drift's `images` array.  For a `new` or `removed`
image the change objects are left empty, which every consumer reads as
all-zero (`tot := 0` blocks). -/
structure ImageDiff where
  image : String := ""
  status : String := "unknown"
  os_level_change : SevBlock := {}
  app_level_change : SevBlock := {}
  total_change : SevBlock := {}
deriving Repr, DecidableEq

def ImageDiff.change (d : ImageDiff) : Level → SevBlock
  | .os_level => d.os_level_change
  | .app_level => d.app_level_change
  | .total => d.total_change

/-- The body of the `for image in sorted(all_images)` loop
(compare.py lines 71-113).  The image dictionaries built by the
comprehension always contain the `"image"` key, so they are truthy and
`if prev_img and curr_img` is presence of both entries. -/
def imageDiffFor (prev curr : List (String × ImageEntry)) (image : String) : ImageDiff :=
  match dictGet? prev image, dictGet? curr image with
  | some p, some c =>
    { image := image
      status := "compared"
      os_level_change := diffBlock p.os_level c.os_level
      app_level_change := diffBlock p.app_level c.app_level
      total_change := diffBlock p.total c.total }
  | some _, none => { image := image, status := "removed" }
  | none, some _ => { image := image, status := "new" }
  | none, none => { image := image, status := "unknown" }

/-- The drift structure `calculate_diff` returns. -/
structure DiffResult where
  previous_timestamp : Option String := none
  current_timestamp : Option String := none
  images : List ImageDiff := []
  summary : Summary := {}
deriving Repr, DecidableEq

/-- `calculate_diff` (compare.py lines 55-128).  The summary deltas are
computed from the two snapshots' own `summary` objects (lines 115-126),
category by category. -/
def calculate_diff (previous current : Snapshot) : DiffResult :=
  let prev_images := imagesDict previous.images
  let curr_images := imagesDict current.images
  { previous_timestamp := previous.timestamp
    current_timestamp := current.timestamp
    images := (allImageKeys prev_images curr_images).map
      (imageDiffFor prev_images curr_images)
    summary :=
      { os_level := diffBlock previous.summary.os_level current.summary.os_level
        app_level := diffBlock previous.summary.app_level current.summary.app_level
        total := diffBlock previous.summary.total current.summary.total } }

/-- `get_image_name` (compare.py lines 155-164):
`full_image.split('/')[-1]`. -/
def get_image_name (full_image : String) : String :=
  ((splitChar full_image.data '/').map (fun cs => (⟨cs⟩ : String))).getLastD ""

/-- `{get_image_name(full): (img, full) for full, img in images.items()}`
(compare.py lines 177-178): later full paths with the same stripped name
win. -/
def byNameDict (d : List (String × ImageEntry)) : List (String × (ImageEntry × String)) :=
  d.foldl (fun m e => dictInsert m (get_image_name e.1) (e.2, e.1)) []

/-- Python `f"{n:+d}"`: always an explicit sign (`+0` for zero). -/
def fmtSigned (n : Int) : String :=
  if n ≥ 0 then "+" ++ toString n else toString n

/-- Python `str.capitalize` (ASCII). -/
def capitalizeAscii (s : String) : String :=
  match s.data with
  | [] => ""
  | c :: cs => ⟨Char.toUpper c :: cs.map Char.toLower⟩

/-- The `image_display` expression (lines 219-223 and 260-264): show both
paths when they differ. -/
def imageDisplay (prev_full curr_full : String) : String :=
  if prev_full ≠ curr_full then "`" ++ prev_full ++ "` → `" ++ curr_full ++ "`"
  else "`" ++ curr_full ++ "`"

/-- The five severities the Markdown code iterates over (lines 251 and
270); `unknown` is not among them. -/
def mdSeverities : List Severity :=
  [.critical, .high, .medium, .low, .negligible]

/-- The summary-table row for one matched image name
(compare.py lines 187-232); an unmatched name contributes no row. -/
def summaryRowFor (prevBy currBy : List (String × (ImageEntry × String)))
    (name : String) : List String :=
  match dictGet? prevBy name, dictGet? currBy name with
  | some (pimg, pfull), some (cimg, cfull) =>
    let before_total := pimg.total.tot
    let after_total := cimg.total.tot
    let change_total := after_total - before_total
    let cC := cimg.total.critical - pimg.total.critical
    let hC := cimg.total.high - pimg.total.high
    let mC := cimg.total.medium - pimg.total.medium
    let lC := cimg.total.low - pimg.total.low
    let before_str := "**" ++ toString before_total ++ " total** (" ++
      toString pimg.total.critical ++ "C / " ++ toString pimg.total.high ++ "H / " ++
      toString pimg.total.medium ++ "M / " ++ toString pimg.total.low ++ "L)"
    let after_str := "**" ++ toString after_total ++ " total** (" ++
      toString cimg.total.critical ++ "C / " ++ toString cimg.total.high ++ "H / " ++
      toString cimg.total.medium ++ "M / " ++ toString cimg.total.low ++ "L)"
    let change_str := "**" ++ fmtSigned change_total ++ "** total" ++
      (if cC ≠ 0 ∨ hC ≠ 0 ∨ mC ≠ 0 ∨ lC ≠ 0 then
        " (**" ++ fmtSigned cC ++ "C / " ++ fmtSigned hC ++ "H / " ++
        fmtSigned mC ++ "M / " ++ fmtSigned lC ++ "L**)"
      else "")
    ["| " ++ imageDisplay pfull cfull ++ " | " ++ before_str ++ " | " ++
      after_str ++ " | " ++ change_str ++ " |"]
  | _, _ => []

/-- The `has_changes` test of the breakdown loop (compare.py lines
249-256): it compares the `total` object of the two sides on the five
severities of `mdSeverities` only — a change confined to `unknown` does
not count. -/
def hasChangesMd (p c : SevBlock) : Bool :=
  mdSeverities.any (fun sev => p.get sev ≠ c.get sev)

/-- The per-image breakdown section for one image name (compare.py lines
238-281): emitted only when both sides match the name and `has_changes`
holds. -/
def breakdownFor (prevBy currBy : List (String × (ImageEntry × String)))
    (name : String) : List String :=
  match dictGet? prevBy name, dictGet? currBy name with
  | some (pimg, pfull), some (cimg, cfull) =>
    if hasChangesMd pimg.total cimg.total then
      ["#### " ++ imageDisplay pfull cfull,
       "| Severity | Before | After | Delta |",
       "|---|---:|---:|---:|"] ++
      mdSeverities.map (fun sev =>
        "| " ++ capitalizeAscii (sevName sev) ++ " | " ++
        toString (pimg.total.get sev) ++ " | " ++ toString (cimg.total.get sev) ++
        " | **" ++ fmtSigned (cimg.total.get sev - pimg.total.get sev) ++ "** |") ++
      ["| **Total** | **" ++ toString pimg.total.tot ++ "** | **" ++
        toString cimg.total.tot ++ "** | **" ++
        fmtSigned (cimg.total.tot - pimg.total.tot) ++ "** |",
       ""]
    else []
  | _, _ => []

/-- `generate_markdown_report` (compare.py lines 167-288) as the list of
Markdown lines it writes (the file write is the I/O boundary). -/
def generate_markdown_report (previous current : Snapshot) : List String :=
  let prevBy := byNameDict (imagesDict previous.images)
  let currBy := byNameDict (imagesDict current.images)
  let names := sortStrings ((prevBy.map (fun e => e.1)) ++ (currBy.map (fun e => e.1))).dedup
  ["## 🔎 Vulnerability Summary\n",
   "| Image | Before | After | Change |",
   "|---|---:|---:|---:|"] ++
  names.flatMap (summaryRowFor prevBy currBy) ++
  ["", "### Breakdown by Severity\n"] ++
  names.flatMap (breakdownFor prevBy currBy)

/-! ### Dictionary lemmas -/

section DictLemmas

variable {α β : Type} [DecidableEq α]

theorem mem_keys_dictInsert {m : List (α × β)} {k a : α} {v : β} :
    a ∈ (dictInsert m k v).map Prod.fst ↔ a ∈ m.map Prod.fst ∨ a = k := by
  induction m with
  | nil => simp [dictInsert]
  | cons e t ih =>
    obtain ⟨k', v'⟩ := e
    by_cases h : k' = k
    · subst h
      simp [dictInsert]
      tauto
    · simp [dictInsert, h, ih]
      tauto

theorem keys_dictInsert_of_mem {m : List (α × β)} {k : α} {v : β}
    (h : k ∈ m.map Prod.fst) :
    (dictInsert m k v).map Prod.fst = m.map Prod.fst := by
  induction m with
  | nil => simp at h
  | cons e t ih =>
    obtain ⟨k', v'⟩ := e
    by_cases hk : k' = k
    · simp [dictInsert, hk]
    · simp only [List.map_cons, List.mem_cons] at h
      rcases h with h | h
      · exact absurd h.symm hk
      · simp [dictInsert, hk, ih h]

theorem keys_dictInsert_of_not_mem {m : List (α × β)} {k : α} {v : β}
    (h : k ∉ m.map Prod.fst) :
    (dictInsert m k v).map Prod.fst = m.map Prod.fst ++ [k] := by
  induction m with
  | nil => simp [dictInsert]
  | cons e t ih =>
    obtain ⟨k', v'⟩ := e
    simp only [List.map_cons, List.mem_cons] at h
    push_neg at h
    simp [dictInsert, Ne.symm h.1, ih h.2]

theorem nodup_keys_dictInsert {m : List (α × β)} {k : α} {v : β}
    (h : (m.map Prod.fst).Nodup) :
    ((dictInsert m k v).map Prod.fst).Nodup := by
  by_cases hk : k ∈ m.map Prod.fst
  · rw [keys_dictInsert_of_mem hk]; exact h
  · rw [keys_dictInsert_of_not_mem hk]
    exact h.append (List.nodup_singleton k)
      (fun a ha hmem => by
        rw [List.mem_singleton] at hmem
        exact hk (hmem ▸ ha))

theorem dictGet?_dictInsert_self {m : List (α × β)} {k : α} {v : β} :
    dictGet? (dictInsert m k v) k = some v := by
  induction m with
  | nil => simp [dictInsert, dictGet?]
  | cons e t ih =>
    obtain ⟨k', v'⟩ := e
    by_cases h : k' = k <;> simp [dictInsert, dictGet?, h, ih]

theorem dictGet?_dictInsert_ne {m : List (α × β)} {k a : α} {v : β} (h : a ≠ k) :
    dictGet? (dictInsert m k v) a = dictGet? m a := by
  induction m with
  | nil => simp [dictInsert, dictGet?, Ne.symm h]
  | cons e t ih =>
    obtain ⟨k', v'⟩ := e
    by_cases hk : k' = k
    · subst hk; simp [dictInsert, dictGet?, Ne.symm h]
    · by_cases ha : k' = a
      · subst ha; simp [dictInsert, dictGet?, hk]
      · simp [dictInsert, dictGet?, hk, ha, ih]

theorem dictGet?_isSome_iff {m : List (α × β)} {k : α} :
    (dictGet? m k).isSome ↔ k ∈ m.map Prod.fst := by
  induction m with
  | nil => simp [dictGet?]
  | cons e t ih =>
    obtain ⟨k', v'⟩ := e
    by_cases h : k' = k
    · subst h; simp [dictGet?]
    · have h2 : ¬k = k' := fun hh => h hh.symm
      simp [dictGet?, h, h2, ih]

theorem dictGet?_eq_none_iff {m : List (α × β)} {k : α} :
    dictGet? m k = none ↔ k ∉ m.map Prod.fst := by
  rw [← dictGet?_isSome_iff, Option.not_isSome_iff_eq_none]

theorem mem_of_dictGet?_eq_some {m : List (α × β)} {k : α} {v : β}
    (h : dictGet? m k = some v) : (k, v) ∈ m := by
  induction m with
  | nil => simp [dictGet?] at h
  | cons e t ih =>
    obtain ⟨k', v'⟩ := e
    rw [dictGet?] at h
    split at h
    next heq =>
      injection h with h
      subst heq; subst h
      exact List.mem_cons_self _ _
    next heq =>
      exact List.mem_cons_of_mem _ (ih h)

theorem dictGet?_of_mem_nodup {m : List (α × β)} {k : α} {v : β}
    (hnd : (m.map Prod.fst).Nodup) (h : (k, v) ∈ m) : dictGet? m k = some v := by
  induction m with
  | nil => simp at h
  | cons e t ih =>
    obtain ⟨k', v'⟩ := e
    rw [List.map_cons] at hnd
    have hnd1 := (List.nodup_cons.mp hnd).1
    have hnd2 := (List.nodup_cons.mp hnd).2
    rcases List.mem_cons.mp h with h | h
    · injection h with h1 h2
      subst h1; subst h2
      simp [dictGet?]
    · have hne : k' ≠ k := by
        rintro rfl
        exact hnd1 (List.mem_map.mpr ⟨(k', v), h, rfl⟩)
      simp [dictGet?, hne, ih hnd2 h]

theorem dictGet?_append_left {m n : List (α × β)} {k : α} {v : β}
    (h : dictGet? m k = some v) : dictGet? (m ++ n) k = some v := by
  induction m with
  | nil => simp [dictGet?] at h
  | cons e t ih =>
    obtain ⟨k', v'⟩ := e
    rw [dictGet?] at h
    rw [List.cons_append, dictGet?]
    split at h
    next heq => rw [if_pos heq]; exact h
    next heq => rw [if_neg heq]; exact ih h

end DictLemmas

/-! ### List-sum helpers -/

theorem list_sum_map_add {α : Type} (l : List α) (f g : α → Int) :
    (l.map (fun x => f x + g x)).sum = (l.map f).sum + (l.map g).sum := by
  induction l with
  | nil => simp
  | cons a t ih => simp [ih]; ring

theorem list_sum_map_sub {α : Type} (l : List α) (f g : α → Int) :
    (l.map (fun x => f x - g x)).sum = (l.map f).sum - (l.map g).sum := by
  induction l with
  | nil => simp
  | cons a t ih => simp [ih]; ring

/-! ### Claim C3 — severity normalization -/

/-- C3, counterexample: `normalize_severity` does not map every input into
the six-value enumeration — the unrecognized, non-empty input `"banana"`
is passed through uppercased instead of being coerced to `"UNKNOWN"`. -/
theorem C3_counterexample :
    normalize_severity "banana" ∉
      ["CRITICAL", "HIGH", "MEDIUM", "LOW", "NEGLIGIBLE", "UNKNOWN"] ∧
    normalize_severity "banana" = "BANANA" := by decide

/-- C3, amended: `normalize_severity` uppercases every non-empty severity
string (so recognized values are case-normalized into the enumeration) and
maps only the empty (falsy) input to `"UNKNOWN"`; unrecognized non-empty
inputs pass through uppercased rather than being coerced to `"UNKNOWN"`,
and no input is dropped or causes a failure. -/
theorem C3_amended :
    (∀ s : String, s ≠ "" → normalize_severity s = upperAscii s) ∧
    normalize_severity "" = "UNKNOWN" := by
  constructor
  · intro s hs
    simp [normalize_severity, hs]
  · rfl

/-- Witness for `C3_amended` at the concrete input `"low"`. -/
theorem C3_amended_witness :
    "low" ≠ "" ∧ normalize_severity "low" = upperAscii "low" :=
  ⟨by decide, C3_amended.1 "low" (by decide)⟩

/-! ### Claim C4 — CVSS source selection in `parse_trivy_results` -/

/-- C4, counterexample: a vulnerability whose CVSS map carries a V2 vector
under its first source and a V3 vector under a later source.  Both a V2
and a V3 vector exist, yet `parse_trivy_results` selects the V2 vector:
the first-encountered value is never replaced, so the V3 vector is *not*
preferred across sources. -/
theorem C4_counterexample :
    (parse_trivy_results
      [{ target := "t", rtype := "debian",
         vulnerabilities :=
           [{ vulnerabilityID := "CVE-2024-1", pkgName := "pkg",
              installedVersion := "1.0", severity := "HIGH",
              cvss := [{ v2vector := some "AV:N/AC:L" },
                       { v3vector := some "CVSS:3.1/AV:N" }] }] }]).map
      (fun f => f.cvss_vector) = [some "AV:N/AC:L"] ∧
    ("AV:N/AC:L" : String) ≠ "CVSS:3.1/AV:N" := by decide

theorem cvssStep_vector_of_truthy {acc : CvssAcc} (src : CvssSource)
    (h : truthyS acc.cvss_vector = true) :
    ((cvssStep acc src).cvss_vector = acc.cvss_vector) := by
  simp [cvssStep, h]

theorem cvssStep_v2_of_truthy {acc : CvssAcc} (src : CvssSource)
    (h : truthyQ acc.cvss_v2_score = true) :
    ((cvssStep acc src).cvss_v2_score = acc.cvss_v2_score) := by
  simp [cvssStep, h]

theorem cvssStep_v3_of_truthy {acc : CvssAcc} (src : CvssSource)
    (h : truthyQ acc.cvss_v3_score = true) :
    ((cvssStep acc src).cvss_v3_score = acc.cvss_v3_score) := by
  simp [cvssStep, h]

theorem foldl_cvss_vector_stable (post : List CvssSource) :
    ∀ acc : CvssAcc, truthyS acc.cvss_vector = true →
      (post.foldl cvssStep acc).cvss_vector = acc.cvss_vector := by
  induction post with
  | nil => intro acc _; rfl
  | cons src t ih =>
    intro acc h
    rw [List.foldl_cons, ih _ (by rw [cvssStep_vector_of_truthy src h]; exact h),
      cvssStep_vector_of_truthy src h]

theorem foldl_cvss_v2_stable (post : List CvssSource) :
    ∀ acc : CvssAcc, truthyQ acc.cvss_v2_score = true →
      (post.foldl cvssStep acc).cvss_v2_score = acc.cvss_v2_score := by
  induction post with
  | nil => intro acc _; rfl
  | cons src t ih =>
    intro acc h
    rw [List.foldl_cons, ih _ (by rw [cvssStep_v2_of_truthy src h]; exact h),
      cvssStep_v2_of_truthy src h]

theorem foldl_cvss_v3_stable (post : List CvssSource) :
    ∀ acc : CvssAcc, truthyQ acc.cvss_v3_score = true →
      (post.foldl cvssStep acc).cvss_v3_score = acc.cvss_v3_score := by
  induction post with
  | nil => intro acc _; rfl
  | cons src t ih =>
    intro acc h
    rw [List.foldl_cons, ih _ (by rw [cvssStep_v3_of_truthy src h]; exact h),
      cvssStep_v3_of_truthy src h]

/-- C4, amended: per score type the selection is first-truthy-writer-wins
across sources — once the accumulated V2 score, V3 score or vector is
truthy (non-`None`, non-zero, non-empty) it is never overridden by any
later source — and within a single source the V3 vector is preferred over
the V2 vector.  The V3-over-V2 vector preference does *not* hold across
sources (`C4_counterexample`): an earlier source's V2 vector is kept even
when a later source carries a V3 vector; and a falsy already-set value
(`None` or `0` score, empty vector) *can* be overridden by a later source. -/
theorem C4_amended :
    (∀ pre post : List CvssSource, truthyS (extractCvss pre).cvss_vector = true →
      (extractCvss (pre ++ post)).cvss_vector = (extractCvss pre).cvss_vector) ∧
    (∀ pre post : List CvssSource, truthyQ (extractCvss pre).cvss_v2_score = true →
      (extractCvss (pre ++ post)).cvss_v2_score = (extractCvss pre).cvss_v2_score) ∧
    (∀ pre post : List CvssSource, truthyQ (extractCvss pre).cvss_v3_score = true →
      (extractCvss (pre ++ post)).cvss_v3_score = (extractCvss pre).cvss_v3_score) ∧
    (∀ (acc : CvssAcc) (src : CvssSource), truthyS acc.cvss_vector = false →
      src.v3vector.isSome = true → (cvssStep acc src).cvss_vector = src.v3vector) := by
  refine ⟨?_, ?_, ?_, ?_⟩
  · intro pre post h
    rw [extractCvss, List.foldl_append]
    exact foldl_cvss_vector_stable post _ h
  · intro pre post h
    rw [extractCvss, List.foldl_append]
    exact foldl_cvss_v2_stable post _ h
  · intro pre post h
    rw [extractCvss, List.foldl_append]
    exact foldl_cvss_v3_stable post _ h
  · intro acc src h hsome
    simp [cvssStep, h, hsome]

/-- Witness for `C4_amended`: a truthy vector from the first source is not
overridden by a second source's V3 vector. -/
theorem C4_amended_witness :
    truthyS (extractCvss [{ v2vector := some "AV:N/AC:L" }]).cvss_vector = true ∧
    (extractCvss ([{ v2vector := some "AV:N/AC:L" }] ++
      [{ v3vector := some "CVSS:3.1/AV:N" }])).cvss_vector =
      (extractCvss [{ v2vector := some "AV:N/AC:L" }]).cvss_vector :=
  ⟨by decide, C4_amended.1 [{ v2vector := some "AV:N/AC:L" }]
    [{ v3vector := some "CVSS:3.1/AV:N" }] (by decide)⟩

/-! ### Claim C2 — the total invariant of `save_results_to_json` -/

/-- C2: in every snapshot written by `save_results_to_json`, for every
image and every one of the six severities the `total` count equals
`os_level + app_level`, and the same holds componentwise for the
snapshot-wide `summary` block; both `total` blocks are recomputed from
their two components. -/
theorem C2_total_invariant (ts : String) (results : List ImageVulnerabilities) :
    (∀ entry ∈ (save_results_to_json ts results).images, ∀ sev : Severity,
      entry.total.get sev = entry.os_level.get sev + entry.app_level.get sev) ∧
    (∀ sev : Severity,
      (save_results_to_json ts results).summary.total.get sev =
        (save_results_to_json ts results).summary.os_level.get sev +
          (save_results_to_json ts results).summary.app_level.get sev) := by
  constructor
  · intro entry hmem sev
    simp only [save_results_to_json, List.mem_map] at hmem
    obtain ⟨r, _, rfl⟩ := hmem
    cases sev <;>
      simp [SevBlock.get, blockOfStats, totalBlockOf]
  · intro sev
    cases sev <;>
      simp [save_results_to_json, SevBlock.get, Nat.cast_add, list_sum_map_add]

/-- Witness for `C2_total_invariant` at a one-image results list. -/
theorem C2_total_invariant_witness :
    (({ image := "a",
        os_level := { critical := 1, tot := 1 },
        app_level := { critical := 2, tot := 2 },
        total := { critical := 3, tot := 3 } } : ImageEntry) ∈
      (save_results_to_json "2024"
        [{ image_name := "a", os_level := { critical := 1 },
           app_level := { critical := 2 } }]).images) ∧
    (({ image := "a",
        os_level := { critical := 1, tot := 1 },
        app_level := { critical := 2, tot := 2 },
        total := { critical := 3, tot := 3 } } : ImageEntry).total.get .critical =
      ({ image := "a",
         os_level := { critical := 1, tot := 1 },
         app_level := { critical := 2, tot := 2 },
         total := { critical := 3, tot := 3 } } : ImageEntry).os_level.get .critical +
      ({ image := "a",
         os_level := { critical := 1, tot := 1 },
         app_level := { critical := 2, tot := 2 },
         total := { critical := 3, tot := 3 } } : ImageEntry).app_level.get .critical) :=
  ⟨by decide,
   (C2_total_invariant "2024"
      [{ image_name := "a", os_level := { critical := 1 },
         app_level := { critical := 2 } }]).1 _ (by decide) .critical⟩

/-! ### Claim C10 — match conservation in `process_grype_results` -/

theorem bumpSeverity_total (s : VulnerabilityStats) (sev : String) :
    (bumpSeverity s sev).total = s.total + 1 := by
  unfold bumpSeverity
  repeat' split
  all_goals simp only [VulnerabilityStats.total]
  all_goals omega

theorem processMatch_total (acc : VulnerabilityStats × VulnerabilityStats)
    (m : GrypeMatch) :
    (processMatch acc m).1.total + (processMatch acc m).2.total =
      acc.1.total + acc.2.total + 1 := by
  simp only [processMatch]
  by_cases h : (categorize_vulnerability m).1 = "os_level" <;>
    simp [h, bumpSeverity_total] <;> ring

theorem foldl_processMatch_total (l : List GrypeMatch) :
    ∀ acc : VulnerabilityStats × VulnerabilityStats,
      (l.foldl processMatch acc).1.total + (l.foldl processMatch acc).2.total =
        acc.1.total + acc.2.total + l.length := by
  induction l with
  | nil => intro acc; simp
  | cons m t ih =>
    intro acc
    rw [List.foldl_cons, ih (processMatch acc m), processMatch_total]
    simp only [List.length_cons]
    ring

/-- C10: `process_grype_results` counts every entry of `matches` in exactly
one of the twelve severity counters, so the two `total()`s sum to the
number of matches; and `categorize_vulnerability` sends a package type
outside both fixed ecosystem sets to `app_level`, never dropping it. -/
theorem C10_match_conservation (matchList : List GrypeMatch) :
    ((process_grype_results matchList).1.total +
      (process_grype_results matchList).2.total = matchList.length) ∧
    (∀ m : GrypeMatch, lowerAscii (m.artifactType.getD "") ∉ os_level_types →
      lowerAscii (m.artifactType.getD "") ∉ app_level_types →
      (categorize_vulnerability m).1 = "app_level") := by
  constructor
  · rw [process_grype_results, foldl_processMatch_total]
    simp [VulnerabilityStats.total]
  · intro m h1 h2
    simp [categorize_vulnerability, h1, h2]

/-- Witness for `C10_match_conservation`: a match with the unrecognized
package type `"weird"` is categorized `app_level`. -/
theorem C10_match_conservation_witness :
    lowerAscii ((some "weird" : Option String).getD "") ∉ os_level_types ∧
    lowerAscii ((some "weird" : Option String).getD "") ∉ app_level_types ∧
    (categorize_vulnerability
      { severity := some "High", artifactType := some "weird" }).1 = "app_level" :=
  ⟨by decide, by decide,
   (C10_match_conservation []).2
     { severity := some "High", artifactType := some "weird" } (by decide) (by decide)⟩

/-! ### Claim C1 — drift summary vs. per-image deltas -/

/-- C1, counterexample: `calculate_diff` computes the summary from the two
snapshots' own `summary` objects, not from the per-image deltas.  With an
empty previous snapshot and a current snapshot holding one image with one
critical finding (and a consistent summary), the image is `new` and
contributes a zero delta, yet the drift summary reports `critical = 1`:
the sum of per-image deltas (0) differs from the summary delta (1). -/
theorem C1_counterexample :
    ((calculate_diff {}
        { images := [{ image := "app", total := { critical := 1, tot := 1 } }],
          summary := { total := { critical := 1, tot := 1 } } }).summary.total.get
      .critical = 1) ∧
    (((calculate_diff {}
        { images := [{ image := "app", total := { critical := 1, tot := 1 } }],
          summary := { total := { critical := 1, tot := 1 } } }).images.map
        (fun d => d.total_change.get .critical)).sum = 0) ∧
    ((calculate_diff {}
        { images := [{ image := "app", total := { critical := 1, tot := 1 } }],
          summary := { total := { critical := 1, tot := 1 } } }).images.map
        (fun d => d.status)) = ["new"] := by decide

/-! ### Claim C9 — which images get a Markdown breakdown section -/

/-- C9, counterexample: a matched image whose only severity-count change
is in `unknown` (1 → 2).  Its per-severity counts changed, but
`generate_markdown_report` emits no breakdown section for it (no `####`
header anywhere in the report) because `has_changes` inspects only
critical/high/medium/low/negligible; the image still gets its summary-table
row. -/
theorem C9_counterexample :
    ("#### `app`" ∉ generate_markdown_report
      { images := [{ image := "app", total := { unknown := 1, tot := 1 } }] }
      { images := [{ image := "app", total := { unknown := 2, tot := 2 } }] }) ∧
    ("| `app` | **1 total** (0C / 0H / 0M / 0L) | **2 total** (0C / 0H / 0M / 0L) | **+1** total |" ∈
      generate_markdown_report
        { images := [{ image := "app", total := { unknown := 1, tot := 1 } }]  }
        { images := [{ image := "app", total := { unknown := 2, tot := 2 } }] }) ∧
    (({ unknown := 1, tot := 1 } : SevBlock).get .unknown ≠
      ({ unknown := 2, tot := 2 } : SevBlock).get .unknown) := by decide

/-- C9, amended: in `generate_markdown_report` the per-image breakdown
section is emitted exactly for the matched image names for which one of
the five severities critical/high/medium/low/negligible differs between
the two `total` objects — a change confined to the `unknown` severity does
not trigger a breakdown — while the summary-table row is emitted for every
matched name regardless of change. -/
theorem C9_amended (prevBy currBy : List (String × (ImageEntry × String)))
    (name : String) :
    (breakdownFor prevBy currBy name ≠ [] ↔
      ∃ p c, dictGet? prevBy name = some p ∧ dictGet? currBy name = some c ∧
        ∃ sev ∈ mdSeverities, p.1.total.get sev ≠ c.1.total.get sev) ∧
    (summaryRowFor prevBy currBy name ≠ [] ↔
      ∃ p c, dictGet? prevBy name = some p ∧ dictGet? currBy name = some c) := by
  constructor
  · rcases h1 : dictGet? prevBy name with _ | p <;>
      rcases h2 : dictGet? currBy name with _ | c <;>
        simp [breakdownFor, h1, h2, hasChangesMd, List.any_eq_true]
  · rcases h1 : dictGet? prevBy name with _ | p <;>
      rcases h2 : dictGet? currBy name with _ | c <;>
        simp [summaryRowFor, h1, h2]

/-! ### Claim C6 — status classification completeness -/

theorem mem_sortStrings {l : List String} {a : String} :
    a ∈ sortStrings l ↔ a ∈ l :=
  (List.perm_insertionSort _ l).mem_iff

theorem nodup_sortStrings {l : List String} (h : l.Nodup) :
    (sortStrings l).Nodup :=
  (List.perm_insertionSort _ l).symm.nodup h

theorem mem_keys_imagesDict_aux (imgs : List ImageEntry) :
    ∀ (m : List (String × ImageEntry)) (a : String),
      a ∈ (imgs.foldl (fun m img => dictInsert m img.image img) m).map Prod.fst ↔
        a ∈ m.map Prod.fst ∨ a ∈ imgs.map ImageEntry.image := by
  induction imgs with
  | nil => intro m a; simp
  | cons img rest ih =>
    intro m a
    rw [List.foldl_cons, ih, mem_keys_dictInsert]
    simp only [List.map_cons, List.mem_cons]
    tauto

theorem mem_keys_imagesDict {imgs : List ImageEntry} {a : String} :
    a ∈ (imagesDict imgs).map Prod.fst ↔ a ∈ imgs.map ImageEntry.image := by
  rw [imagesDict, mem_keys_imagesDict_aux]
  simp

theorem mem_allImageKeys {P C : List (String × ImageEntry)} {a : String} :
    a ∈ allImageKeys P C ↔ a ∈ P.map Prod.fst ∨ a ∈ C.map Prod.fst := by
  rw [allImageKeys, mem_sortStrings, List.mem_dedup, List.mem_append]

theorem nodup_allImageKeys {P C : List (String × ImageEntry)} :
    (allImageKeys P C).Nodup :=
  nodup_sortStrings (List.nodup_dedup _)

theorem imageDiffFor_image (P C : List (String × ImageEntry)) (n : String) :
    (imageDiffFor P C n).image = n := by
  rw [imageDiffFor]
  rcases dictGet? P n with _ | p <;> rcases dictGet? C n with _ | c <;> rfl

/-- C6: every image identifier appearing in either snapshot appears exactly
once in `(calculate_diff prev curr).images`, and its status is `compared`
when it is present in both snapshots, `removed` when present only in the
previous one and `new` when present only in the current one. -/
theorem C6_status_classification (prev curr : Snapshot) (name : String)
    (h : name ∈ prev.images.map ImageEntry.image ∨
      name ∈ curr.images.map ImageEntry.image) :
    (((calculate_diff prev curr).images.map ImageDiff.image).count name = 1) ∧
    (∀ d ∈ (calculate_diff prev curr).images, d.image = name →
      ((name ∈ prev.images.map ImageEntry.image ∧
          name ∈ curr.images.map ImageEntry.image → d.status = "compared") ∧
       (name ∈ prev.images.map ImageEntry.image ∧
          name ∉ curr.images.map ImageEntry.image → d.status = "removed") ∧
       (name ∉ prev.images.map ImageEntry.image ∧
          name ∈ curr.images.map ImageEntry.image → d.status = "new"))) := by
  have himg : (calculate_diff prev curr).images =
      (allImageKeys (imagesDict prev.images) (imagesDict curr.images)).map
        (imageDiffFor (imagesDict prev.images) (imagesDict curr.images)) := rfl
  constructor
  · rw [himg, List.map_map]
    have heq : ((allImageKeys (imagesDict prev.images) (imagesDict curr.images)).map
        (ImageDiff.image ∘ imageDiffFor (imagesDict prev.images) (imagesDict curr.images))) =
        ((allImageKeys (imagesDict prev.images) (imagesDict curr.images)).map id) :=
      List.map_congr_left (fun n _ => imageDiffFor_image _ _ n)
    rw [heq, List.map_id]
    have hmem : name ∈ allImageKeys (imagesDict prev.images) (imagesDict curr.images) := by
      rw [mem_allImageKeys, mem_keys_imagesDict, mem_keys_imagesDict]
      exact h
    exact List.count_eq_one_of_mem nodup_allImageKeys hmem
  · intro d hd hdname
    rw [himg] at hd
    obtain ⟨n, hn, rfl⟩ := List.mem_map.mp hd
    rw [imageDiffFor_image] at hdname
    subst hdname
    rcases hp : dictGet? (imagesDict prev.images) n with _ | p <;>
      rcases hc : dictGet? (imagesDict curr.images) n with _ | c
    · have h1 : n ∉ prev.images.map ImageEntry.image := by
        rw [← mem_keys_imagesDict]; exact dictGet?_eq_none_iff.mp hp
      have h2 : n ∉ curr.images.map ImageEntry.image := by
        rw [← mem_keys_imagesDict]; exact dictGet?_eq_none_iff.mp hc
      exact ⟨fun hx => absurd hx.1 h1, fun hx => absurd hx.1 h1,
        fun hx => absurd hx.2 h2⟩
    · have h1 : n ∉ prev.images.map ImageEntry.image := by
        rw [← mem_keys_imagesDict]; exact dictGet?_eq_none_iff.mp hp
      refine ⟨fun hx => absurd hx.1 h1, fun hx => absurd hx.1 h1, fun _ => ?_⟩
      simp [imageDiffFor, hp, hc]
    · have h2 : n ∉ curr.images.map ImageEntry.image := by
        rw [← mem_keys_imagesDict]; exact dictGet?_eq_none_iff.mp hc
      refine ⟨fun hx => absurd hx.2 h2, fun _ => ?_, fun hx => absurd hx.2 h2⟩
      simp [imageDiffFor, hp, hc]
    · have h1 : n ∈ prev.images.map ImageEntry.image := by
        rw [← mem_keys_imagesDict, ← dictGet?_isSome_iff, hp]; rfl
      have h2 : n ∈ curr.images.map ImageEntry.image := by
        rw [← mem_keys_imagesDict, ← dictGet?_isSome_iff, hc]; rfl
      refine ⟨fun _ => ?_, fun hx => absurd hx.2 (not_not_intro h2),
        fun hx => absurd hx.1 (not_not_intro h1)⟩
      simp [imageDiffFor, hp, hc]

/-- Witness for `C6_status_classification`: an image present only in the
previous snapshot appears once in the drift. -/
theorem C6_status_classification_witness :
    ("a" ∈ ({ images := [{ image := "a" }] } : Snapshot).images.map ImageEntry.image ∨
      "a" ∈ ({} : Snapshot).images.map ImageEntry.image) ∧
    ((calculate_diff { images := [{ image := "a" }] } {}).images.map
      ImageDiff.image).count "a" = 1 :=
  ⟨Or.inl (by decide),
   (C6_status_classification { images := [{ image := "a" }] } {} "a"
     (Or.inl (by decide))).1⟩

theorem dictInsert_of_not_mem {α β : Type} [DecidableEq α] {m : List (α × β)}
    {k : α} {v : β} (h : k ∉ m.map Prod.fst) : dictInsert m k v = m ++ [(k, v)] := by
  induction m with
  | nil => rfl
  | cons e t ih =>
    obtain ⟨k', v'⟩ := e
    simp only [List.map_cons, List.mem_cons] at h
    push_neg at h
    simp [dictInsert, Ne.symm h.1, ih h.2]

theorem imagesDict_aux (imgs : List ImageEntry) :
    ∀ m : List (String × ImageEntry),
      (∀ a ∈ imgs.map ImageEntry.image, a ∉ m.map Prod.fst) →
      (imgs.map ImageEntry.image).Nodup →
      imgs.foldl (fun m img => dictInsert m img.image img) m =
        m ++ imgs.map (fun i => (i.image, i)) := by
  induction imgs with
  | nil => intro m _ _; simp
  | cons img rest ih =>
    intro m hdisj hnd
    rw [List.map_cons] at hnd
    have hnd1 := (List.nodup_cons.mp hnd).1
    have hnd2 := (List.nodup_cons.mp hnd).2
    rw [List.foldl_cons, dictInsert_of_not_mem (hdisj _ (by simp)), ih _ ?_ hnd2]
    · simp
    · intro a ha
      rw [List.map_append, List.mem_append]
      push_neg
      constructor
      · exact hdisj a (by simp [ha])
      · simp only [List.map_cons, List.map_nil, List.mem_singleton]
        rintro rfl
        exact hnd1 ha

theorem imagesDict_eq_of_nodup {imgs : List ImageEntry}
    (h : (imgs.map ImageEntry.image).Nodup) :
    imagesDict imgs = imgs.map (fun i => (i.image, i)) := by
  rw [imagesDict, imagesDict_aux imgs [] (by simp) h, List.nil_append]

theorem dictGet?_imagesDict {imgs : List ImageEntry} {i : ImageEntry}
    (h : (imgs.map ImageEntry.image).Nodup) (hi : i ∈ imgs) :
    dictGet? (imagesDict imgs) i.image = some i := by
  rw [imagesDict_eq_of_nodup h]
  apply dictGet?_of_mem_nodup
  · rw [List.map_map]
    simpa [Function.comp] using h
  · exact List.mem_map.mpr ⟨i, hi, rfl⟩

theorem diffBlock_get (p c : SevBlock) (sev : Severity) :
    (diffBlock p c).get sev = c.get sev - p.get sev := by
  cases sev <;> rfl

theorem imageDiffFor_change {P C : List (String × ImageEntry)} {n : String}
    {p c : ImageEntry} (hp : dictGet? P n = some p) (hc : dictGet? C n = some c)
    (lvl : Level) :
    (imageDiffFor P C n).change lvl = diffBlock (p.block lvl) (c.block lvl) := by
  cases lvl <;> simp [imageDiffFor, hp, hc, ImageDiff.change, ImageEntry.block]

/-- A snapshot whose `summary` object is consistent with its `images`
array: each summary count is the sum of the per-image counts of the same
level and severity (as `save_results_to_json` produces). -/
def summaryConsistent (s : Snapshot) : Prop :=
  ∀ (lvl : Level) (sev : Severity),
    (s.summary.block lvl).get sev =
      (s.images.map (fun i => (i.block lvl).get sev)).sum

/-- C1, amended: `calculate_diff` computes the summary deltas from the two
snapshots' own `summary` objects (`current − previous`), not by summing
per-image deltas; the claimed equality with the sum of per-image deltas
holds when both snapshots' summaries are consistent with their images
(`summaryConsistent`), the image identifiers of each snapshot are
duplicate-free, and every image appears in both snapshots (so every drift
entry has status `compared`).  `C1_counterexample` shows the equality
fails as soon as an image appears in only one snapshot, even for
consistent summaries: its counts enter the summary delta but its
per-image delta is zero. -/
theorem C1_amended (prev curr : Snapshot)
    (hcp : summaryConsistent prev) (hcc : summaryConsistent curr)
    (hnp : (prev.images.map ImageEntry.image).Nodup)
    (hnc : (curr.images.map ImageEntry.image).Nodup)
    (hsame : ∀ a, a ∈ prev.images.map ImageEntry.image ↔
      a ∈ curr.images.map ImageEntry.image)
    (lvl : Level) (sev : Severity) :
    ((calculate_diff prev curr).summary.block lvl).get sev =
      ((calculate_diff prev curr).images.map
        (fun d => (d.change lvl).get sev)).sum := by
  have hLHS : ((calculate_diff prev curr).summary.block lvl).get sev =
      (curr.summary.block lvl).get sev - (prev.summary.block lvl).get sev := by
    cases lvl <;> exact diffBlock_get _ _ sev
  have himgs : (calculate_diff prev curr).images =
      (allImageKeys (imagesDict prev.images) (imagesDict curr.images)).map
        (imageDiffFor (imagesDict prev.images) (imagesDict curr.images)) := rfl
  have hmemK : ∀ n ∈ allImageKeys (imagesDict prev.images) (imagesDict curr.images),
      n ∈ prev.images.map ImageEntry.image ∧ n ∈ curr.images.map ImageEntry.image := by
    intro n hn
    rcases mem_allImageKeys.mp hn with h | h
    · have h1 := mem_keys_imagesDict.mp h
      exact ⟨h1, (hsame n).mp h1⟩
    · have h2 := mem_keys_imagesDict.mp h
      exact ⟨(hsame n).mpr h2, h2⟩
  have hstep : ∀ n ∈ allImageKeys (imagesDict prev.images) (imagesDict curr.images),
      ((fun d => (d.change lvl).get sev) ∘
        imageDiffFor (imagesDict prev.images) (imagesDict curr.images)) n =
      (fun n => ((((dictGet? (imagesDict curr.images) n).getD {}).block lvl).get sev) -
        ((((dictGet? (imagesDict prev.images) n).getD {}).block lvl).get sev)) n := by
    intro n hn
    obtain ⟨h1, h2⟩ := hmemK n hn
    obtain ⟨p, hp⟩ := Option.isSome_iff_exists.mp
      (dictGet?_isSome_iff.mpr (mem_keys_imagesDict.mpr h1))
    obtain ⟨c, hc⟩ := Option.isSome_iff_exists.mp
      (dictGet?_isSome_iff.mpr (mem_keys_imagesDict.mpr h2))
    simp only [Function.comp, imageDiffFor_change hp hc, hp, hc, Option.getD_some]
    exact diffBlock_get _ _ sev
  have hpermP : List.Perm
      (allImageKeys (imagesDict prev.images) (imagesDict curr.images))
      (prev.images.map ImageEntry.image) := by
    apply List.perm_of_nodup_nodup_toFinset_eq nodup_allImageKeys hnp
    apply List.toFinset.ext
    intro a
    rw [mem_allImageKeys, mem_keys_imagesDict, mem_keys_imagesDict]
    constructor
    · rintro (h | h)
      · exact h
      · exact (hsame a).mpr h
    · exact fun h => Or.inl h
  have hpermC : List.Perm
      (allImageKeys (imagesDict prev.images) (imagesDict curr.images))
      (curr.images.map ImageEntry.image) := by
    apply List.perm_of_nodup_nodup_toFinset_eq nodup_allImageKeys hnc
    apply List.toFinset.ext
    intro a
    rw [mem_allImageKeys, mem_keys_imagesDict, mem_keys_imagesDict]
    constructor
    · rintro (h | h)
      · exact (hsame a).mp h
      · exact h
    · exact fun h => Or.inr h
  have hsumP : ((prev.images.map ImageEntry.image).map
      (fun n => ((((dictGet? (imagesDict prev.images) n).getD {}).block lvl).get sev))).sum =
      (prev.images.map (fun i => (i.block lvl).get sev)).sum := by
    rw [List.map_map]
    apply congrArg List.sum
    apply List.map_congr_left
    intro i hi
    simp only [Function.comp, dictGet?_imagesDict hnp hi, Option.getD_some]
  have hsumC : ((curr.images.map ImageEntry.image).map
      (fun n => ((((dictGet? (imagesDict curr.images) n).getD {}).block lvl).get sev))).sum =
      (curr.images.map (fun i => (i.block lvl).get sev)).sum := by
    rw [List.map_map]
    apply congrArg List.sum
    apply List.map_congr_left
    intro i hi
    simp only [Function.comp, dictGet?_imagesDict hnc hi, Option.getD_some]
  rw [hLHS, himgs, List.map_map, List.map_congr_left hstep, list_sum_map_sub,
    (hpermC.map _).sum_eq, (hpermP.map _).sum_eq, hsumP, hsumC,
    hcp lvl sev, hcc lvl sev]

/-- Witness for `C1_amended`: two consistent single-image snapshots over
the same image. -/
theorem C1_amended_witness :
    summaryConsistent
      { images := [{ image := "a", total := { critical := 5, tot := 5 } }],
        summary := { total := { critical := 5, tot := 5 } } } ∧
    summaryConsistent
      { images := [{ image := "a", total := { critical := 2, tot := 2 } }],
        summary := { total := { critical := 2, tot := 2 } } } ∧
    ((calculate_diff
      { images := [{ image := "a", total := { critical := 5, tot := 5 } }],
        summary := { total := { critical := 5, tot := 5 } } }
      { images := [{ image := "a", total := { critical := 2, tot := 2 } }],
        summary := { total := { critical := 2, tot := 2 } } }).summary.block
          .total).get .critical =
      ((calculate_diff
        { images := [{ image := "a", total := { critical := 5, tot := 5 } }],
          summary := { total := { critical := 5, tot := 5 } } }
        { images := [{ image := "a", total := { critical := 2, tot := 2 } }],
          summary := { total := { critical := 2, tot := 2 } } }).images.map
        (fun d => (d.change .total).get .critical)).sum :=
  ⟨by intro lvl sev; cases lvl <;> cases sev <;> decide,
   by intro lvl sev; cases lvl <;> cases sev <;> decide,
   C1_amended _ _
     (by intro lvl sev; cases lvl <;> cases sev <;> decide)
     (by intro lvl sev; cases lvl <;> cases sev <;> decide)
     (by decide) (by decide) (by intro a; simp) .total .critical⟩

/-! ### Merge-engine lemmas -/

theorem getD_set_ne {α : Type} {l : List α} {i j : Nat} (h : i ≠ j) (a d : α) :
    (l.set i a).getD j d = l.getD j d := by
  simp [List.getD, List.getElem?_set_ne h]

theorem getD_set_self {α : Type} {l : List α} {i : Nat} (a d : α) (h : i < l.length) :
    (l.set i a).getD i d = a := by
  simp [List.getD, List.getElem?_set_self, h]

theorem getD_mem {α : Type} {l : List α} {i : Nat} {d : α} (h : i < l.length) :
    l.getD i d ∈ l := by
  induction l generalizing i with
  | nil => simp at h
  | cons x t ih =>
    cases i with
    | zero => simp [List.getD]
    | succ n =>
      simp only [List.getD, List.getElem?_cons_succ]
      exact List.mem_cons_of_mem _ (ih (by simpa using h))

theorem take_set_self {α : Type} (l : List α) (i : Nat) (a : α) :
    (l.set i a).take i = l.take i := by
  induction l generalizing i with
  | nil => rfl
  | cons x t ih =>
    cases i with
    | zero => rfl
    | succ n => simp [List.set, List.take_succ_cons, ih]

theorem take_succ_set {α : Type} (l : List α) (i : Nat) (a : α) (h : i < l.length) :
    (l.set i a).take (i + 1) = l.take i ++ [a] := by
  induction l generalizing i with
  | nil => simp at h
  | cons x t ih =>
    cases i with
    | zero => rfl
    | succ n =>
      have hn : n < t.length := by simpa using h
      simp [List.set_cons_succ, List.take_succ_cons, ih n hn]

theorem mem_of_mem_take {α : Type} {l : List α} {n : Nat} {a : α}
    (h : a ∈ l.take n) : a ∈ l :=
  List.mem_of_mem_take h

/-- Validity of a `merged` reference: it points inside the sequence it
indexes. -/
def RefOk (st : MergeState) : MergeRef → Prop
  | Sum.inl i => i < st.trivyObjs.length
  | Sum.inr j => j < st.grypeObjs.length

/-- The state invariant of `merge_vulnerabilities`: the `merged` dictionary
has unique keys, each stored object's key agrees with its dictionary key,
and every reference is valid. -/
structure MergeInv (st : MergeState) : Prop where
  nodup : (st.merged.map Prod.fst).Nodup
  keyOk : ∀ e ∈ st.merged, create_vuln_key (st.deref e.2) = e.1
  refOk : ∀ e ∈ st.merged, RefOk st e.2

/-- During the grype loop, every grype-originated entry refers to an
already-processed position. -/
def Fresh (st : MergeState) (j : Nat) : Prop :=
  ∀ e ∈ st.merged, ∀ j', e.2 = Sum.inr j' → j' < j

theorem deref_write_ne (st : MergeState) {r r' : MergeRef} (f : Finding)
    (h : r ≠ r') : (st.write r' f).deref r = st.deref r := by
  cases r with
  | inl i =>
    cases r' with
    | inl i' =>
      have hne : i' ≠ i := by rintro rfl; exact h rfl
      simp only [MergeState.write, MergeState.deref]
      exact getD_set_ne hne _ _
    | inr j' => rfl
  | inr j =>
    cases r' with
    | inl i' => rfl
    | inr j' =>
      have hne : j' ≠ j := by rintro rfl; exact h rfl
      simp only [MergeState.write, MergeState.deref]
      exact getD_set_ne hne _ _

theorem deref_write_self (st : MergeState) {r : MergeRef} (f : Finding)
    (h : RefOk st r) : (st.write r f).deref r = f := by
  cases r with
  | inl i =>
    simp only [MergeState.write, MergeState.deref]
    exact getD_set_self _ _ h
  | inr j =>
    simp only [MergeState.write, MergeState.deref]
    exact getD_set_self _ _ h

theorem write_merged (st : MergeState) (r : MergeRef) (f : Finding) :
    (st.write r f).merged = st.merged := by
  cases r <;> rfl

theorem write_lengths (st : MergeState) (r : MergeRef) (f : Finding) :
    (st.write r f).trivyObjs.length = st.trivyObjs.length ∧
    (st.write r f).grypeObjs.length = st.grypeObjs.length := by
  cases r <;> simp [MergeState.write]

theorem mergeInto_key (e v : Finding) :
    create_vuln_key (mergeInto e v) = create_vuln_key e := by
  simp only [mergeInto, create_vuln_key]
  split_ifs <;> rfl

theorem mergeInto_found_by (e v : Finding) :
    (mergeInto e v).found_by = e.found_by ++ ["grype"] := by
  simp only [mergeInto]
  split_ifs <;> rfl

theorem entry_eq_of_nodup {α β : Type} [DecidableEq α] {m : List (α × β)}
    (h : (m.map Prod.fst).Nodup) {e f : α × β}
    (he : e ∈ m) (hf : f ∈ m) (hk : e.1 = f.1) : e = f := by
  induction m with
  | nil => simp at he
  | cons g t ih =>
    rw [List.map_cons] at h
    have h1 := (List.nodup_cons.mp h).1
    have h2 := (List.nodup_cons.mp h).2
    rcases List.mem_cons.mp he with rfl | he2
    · rcases List.mem_cons.mp hf with rfl | hf2
      · rfl
      · exact absurd (hk ▸ List.mem_map.mpr ⟨f, hf2, rfl⟩) h1
    · rcases List.mem_cons.mp hf with rfl | hf2
      · exact absurd (hk ▸ List.mem_map.mpr ⟨e, he2, rfl⟩) h1
      · exact ih h2 he2 hf2

theorem mem_dictInsert_cases {α β : Type} [DecidableEq α] {m : List (α × β)}
    {k : α} {v : β} {e : α × β} (h : e ∈ dictInsert m k v) :
    e ∈ m ∨ e = (k, v) := by
  induction m with
  | nil => simpa [dictInsert] using h
  | cons g t ih =>
    obtain ⟨k', v'⟩ := g
    rw [dictInsert] at h
    split at h
    next =>
      rcases List.mem_cons.mp h with rfl | h2
      · exact Or.inr rfl
      · exact Or.inl (List.mem_cons_of_mem _ h2)
    next =>
      rcases List.mem_cons.mp h with rfl | h2
      · exact Or.inl (List.mem_cons_self _ _)
      · rcases ih h2 with h3 | h3
        · exact Or.inl (List.mem_cons_of_mem _ h3)
        · exact Or.inr h3

theorem deref_setBoth (st : MergeState) (b : Nat) (r : MergeRef) :
    ({ st with both := b } : MergeState).deref r = st.deref r := by
  cases r <;> rfl

theorem grypeStep_some {st : MergeState} {j : Nat} {v : Finding} {r0 : MergeRef}
    (h : dictGet? st.merged (create_vuln_key v) = some r0) :
    grypeStep st j v =
      { st.write r0 (mergeInto (st.deref r0) v) with
        both := (st.write r0 (mergeInto (st.deref r0) v)).both + 1 } := by
  simp [grypeStep, h]

theorem grypeStep_none {st : MergeState} {j : Nat} {v : Finding}
    (h : dictGet? st.merged (create_vuln_key v) = none) :
    grypeStep st j v =
      { st with grypeObjs := st.grypeObjs.set j { v with found_by := ["grype"] },
                merged := st.merged ++ [(create_vuln_key v, Sum.inr j)],
                grype_only := st.grype_only + 1 } := by
  simp [grypeStep, h]

/-- Effect of one grype-loop iteration on the object a stored entry refers
to: the entry whose key matches the incoming finding is merged in place,
every other entry's object is untouched. -/
theorem grypeStep_deref {st : MergeState} {j : Nat} {v : Finding}
    (hinv : MergeInv st) (hfresh : Fresh st j) {e : VulnKey × MergeRef}
    (he : e ∈ st.merged) :
    (create_vuln_key v = e.1 ∧
      (grypeStep st j v).deref e.2 = mergeInto (st.deref e.2) v) ∨
    (create_vuln_key v ≠ e.1 ∧ (grypeStep st j v).deref e.2 = st.deref e.2) := by
  rcases hl : dictGet? st.merged (create_vuln_key v) with _ | r0
  · have hne : create_vuln_key v ≠ e.1 := by
      intro heq
      exact (dictGet?_eq_none_iff.mp hl) (heq ▸ List.mem_map.mpr ⟨e, he, rfl⟩)
    refine Or.inr ⟨hne, ?_⟩
    rw [grypeStep_none hl]
    rcases he2 : e.2 with i | j'
    · rfl
    · have hj' : j' < j := hfresh e he j' he2
      simp only [MergeState.deref]
      exact getD_set_ne (by omega) _ _
  · have hmem0 : (create_vuln_key v, r0) ∈ st.merged := mem_of_dictGet?_eq_some hl
    by_cases hk : create_vuln_key v = e.1
    · have he0 : e = (create_vuln_key v, r0) :=
        entry_eq_of_nodup hinv.nodup he hmem0 hk.symm
      refine Or.inl ⟨hk, ?_⟩
      rw [grypeStep_some hl, deref_setBoth]
      have hr : e.2 = r0 := by rw [he0]
      rw [hr, deref_write_self st _ (hr ▸ hinv.refOk e he)]
    · refine Or.inr ⟨hk, ?_⟩
      rw [grypeStep_some hl, deref_setBoth]
      have hne : e.2 ≠ r0 := by
        intro heq
        apply hk
        rw [← hinv.keyOk e he, heq, hinv.keyOk (create_vuln_key v, r0) hmem0]
      exact deref_write_ne st _ hne

theorem refOk_of_lengths {st st2 : MergeState}
    (h1 : st2.trivyObjs.length = st.trivyObjs.length)
    (h2 : st2.grypeObjs.length = st.grypeObjs.length)
    {r : MergeRef} (h : RefOk st r) : RefOk st2 r := by
  cases r <;> simp only [RefOk] at h ⊢ <;> omega

theorem grypeStep_inv {st : MergeState} {j : Nat} {v : Finding}
    (hinv : MergeInv st) (hfresh : Fresh st j)
    (hj : dictGet? st.merged (create_vuln_key v) = none → j < st.grypeObjs.length) :
    MergeInv (grypeStep st j v) ∧ Fresh (grypeStep st j v) (j + 1) ∧
    (grypeStep st j v).trivyObjs.length = st.trivyObjs.length ∧
    (grypeStep st j v).grypeObjs.length = st.grypeObjs.length := by
  rcases hl : dictGet? st.merged (create_vuln_key v) with _ | r0
  · have hjlen := hj hl
    have hmerged : (grypeStep st j v).merged =
        st.merged ++ [(create_vuln_key v, Sum.inr j)] := by rw [grypeStep_none hl]
    have hlens : (grypeStep st j v).trivyObjs.length = st.trivyObjs.length ∧
        (grypeStep st j v).grypeObjs.length = st.grypeObjs.length := by
      rw [grypeStep_none hl]
      exact ⟨rfl, List.length_set ..⟩
    have hderefNew : (grypeStep st j v).deref (Sum.inr j) =
        { v with found_by := ["grype"] } := by
      rw [grypeStep_none hl]
      simp only [MergeState.deref]
      exact getD_set_self _ _ hjlen
    have holdDeref : ∀ e ∈ st.merged,
        (grypeStep st j v).deref e.2 = st.deref e.2 := by
      intro e he
      rcases grypeStep_deref hinv hfresh he with ⟨hk, _⟩ | ⟨_, hd⟩
      · exact absurd (hk ▸ List.mem_map.mpr ⟨e, he, rfl⟩)
          (dictGet?_eq_none_iff.mp hl)
      · exact hd
    refine ⟨⟨?_, ?_, ?_⟩, ?_, hlens.1, hlens.2⟩
    · rw [hmerged, List.map_append]
      refine hinv.nodup.append (List.nodup_singleton _) ?_
      intro a ha hmem
      simp only [List.map_cons, List.map_nil, List.mem_singleton] at hmem
      exact (dictGet?_eq_none_iff.mp hl) (hmem ▸ ha)
    · intro e he
      rw [hmerged] at he
      rcases List.mem_append.mp he with he2 | he2
      · rw [holdDeref e he2]
        exact hinv.keyOk e he2
      · rw [List.mem_singleton] at he2
        subst he2
        rw [hderefNew]
        rfl
    · intro e he
      rw [hmerged] at he
      rcases List.mem_append.mp he with he2 | he2
      · exact refOk_of_lengths hlens.1 hlens.2 (hinv.refOk e he2)
      · rw [List.mem_singleton] at he2
        subst he2
        simp only [RefOk, hlens.2]
        exact hjlen
    · intro e he j' hj'
      rw [hmerged] at he
      rcases List.mem_append.mp he with he2 | he2
      · have := hfresh e he2 j' hj'
        omega
      · rw [List.mem_singleton] at he2
        subst he2
        simp only at hj'
        injection hj' with hj'
        omega
  · have hmerged : (grypeStep st j v).merged = st.merged := by
      rw [grypeStep_some hl, write_merged]
    have hlens : (grypeStep st j v).trivyObjs.length = st.trivyObjs.length ∧
        (grypeStep st j v).grypeObjs.length = st.grypeObjs.length := by
      rw [grypeStep_some hl]
      exact write_lengths ..
    refine ⟨⟨?_, ?_, ?_⟩, ?_, hlens.1, hlens.2⟩
    · rw [hmerged]; exact hinv.nodup
    · intro e he
      rw [hmerged] at he
      rcases grypeStep_deref hinv hfresh he with ⟨_, hd⟩ | ⟨_, hd⟩
      · rw [hd, mergeInto_key]
        exact hinv.keyOk e he
      · rw [hd]
        exact hinv.keyOk e he
    · intro e he
      rw [hmerged] at he
      exact refOk_of_lengths hlens.1 hlens.2 (hinv.refOk e he)
    · intro e he j' hj'
      rw [hmerged] at he
      have := hfresh e he j' hj'
      omega

/-- The invariant established by the first (trivy) loop: every stored
entry refers to an already-processed trivy position, holds the key of the
object it refers to, and that object's `found_by` is `["trivy"]`. -/
def Pass1Inv (st : MergeState) (i : Nat) : Prop :=
  (st.merged.map Prod.fst).Nodup ∧
  ∀ e ∈ st.merged, ∃ i', e.2 = Sum.inl i' ∧ i' < i ∧ i' < st.trivyObjs.length ∧
    create_vuln_key (st.deref e.2) = e.1 ∧ (st.deref e.2).found_by = ["trivy"]

theorem trivyStep_pass1 {st : MergeState} {i : Nat} {f : Finding}
    (h : Pass1Inv st i) (hlt : i < st.trivyObjs.length) :
    Pass1Inv (trivyStep st i f) (i + 1) := by
  constructor
  · exact nodup_keys_dictInsert h.1
  · intro e he
    rcases mem_dictInsert_cases he with he2 | he2
    · obtain ⟨i', href, hii, hlen, hkey, hfb⟩ := h.2 e he2
      refine ⟨i', href, by omega, ?_, ?_, ?_⟩
      · simpa [trivyStep, List.length_set] using hlen
      · rw [href] at hkey ⊢
        simp only [trivyStep, MergeState.deref] at hkey ⊢
        rw [getD_set_ne (by omega) _ _]
        exact hkey
      · rw [href] at hfb ⊢
        simp only [trivyStep, MergeState.deref] at hfb ⊢
        rw [getD_set_ne (by omega) _ _]
        exact hfb
    · subst he2
      refine ⟨i, rfl, by omega, ?_, ?_, ?_⟩
      · simpa [trivyStep, List.length_set] using hlt
      · simp only [trivyStep, MergeState.deref]
        rw [getD_set_self _ _ hlt]
        rfl
      · simp only [trivyStep, MergeState.deref]
        rw [getD_set_self _ _ hlt]

theorem trivyPassFrom_pass1 : ∀ (l : List Finding) (st : MergeState) (i : Nat),
    Pass1Inv st i → i + l.length = st.trivyObjs.length →
    Pass1Inv (trivyPassFrom st i l) (trivyPassFrom st i l).trivyObjs.length ∧
    (trivyPassFrom st i l).trivyObjs.length = st.trivyObjs.length ∧
    (trivyPassFrom st i l).grypeObjs = st.grypeObjs ∧
    (trivyPassFrom st i l).both = st.both ∧
    (trivyPassFrom st i l).grype_only = st.grype_only := by
  intro l
  induction l with
  | nil =>
    intro st i hinv hlen
    have hi : i = st.trivyObjs.length := by simpa using hlen
    subst hi
    exact ⟨hinv, rfl, rfl, rfl, rfl⟩
  | cons f rest ih =>
    intro st i hinv hlen
    have hlt : i < st.trivyObjs.length := by
      simp only [List.length_cons] at hlen
      omega
    have hlen2 : (i + 1) + rest.length = (trivyStep st i f).trivyObjs.length := by
      simp only [trivyStep, List.length_set]
      simp only [List.length_cons] at hlen
      omega
    have hstep : Pass1Inv (trivyStep st i f) (i + 1) := trivyStep_pass1 hinv hlt
    obtain ⟨h1, h2, h3, h4, h5⟩ := ih (trivyStep st i f) (i + 1) hstep hlen2
    rw [trivyPassFrom]
    refine ⟨h1, ?_, ?_, ?_, ?_⟩
    · rw [h2]
      simp [trivyStep, List.length_set]
    · rw [h3]
      rfl
    · rw [h4]
      rfl
    · rw [h5]
      rfl

theorem trivyPassFrom_keys_mono : ∀ (l : List Finding) (st : MergeState) (i : Nat)
    {a : VulnKey}, a ∈ st.merged.map Prod.fst →
    a ∈ (trivyPassFrom st i l).merged.map Prod.fst := by
  intro l
  induction l with
  | nil => intro st i a h; exact h
  | cons f rest ih =>
    intro st i a h
    rw [trivyPassFrom]
    exact ih _ _ (mem_keys_dictInsert.mpr (Or.inl h))

theorem trivyPassFrom_keys_of_mem : ∀ (l : List Finding) (st : MergeState) (i : Nat)
    {f : Finding}, f ∈ l →
    create_vuln_key f ∈ (trivyPassFrom st i l).merged.map Prod.fst := by
  intro l
  induction l with
  | nil => intro st i f h; simp at h
  | cons g rest ih =>
    intro st i f h
    rw [trivyPassFrom]
    rcases List.mem_cons.mp h with rfl | h2
    · exact trivyPassFrom_keys_mono rest _ _
        (mem_keys_dictInsert.mpr (Or.inr rfl))
    · exact ih _ _ h2

theorem trivyPassFrom_keys_src : ∀ (l : List Finding) (st : MergeState) (i : Nat)
    {a : VulnKey}, a ∈ (trivyPassFrom st i l).merged.map Prod.fst →
    a ∈ st.merged.map Prod.fst ∨ ∃ f ∈ l, create_vuln_key f = a := by
  intro l
  induction l with
  | nil => intro st i a h; exact Or.inl h
  | cons g rest ih =>
    intro st i a h
    rw [trivyPassFrom] at h
    rcases ih _ _ h with h2 | ⟨f, hf, hk⟩
    · rcases mem_keys_dictInsert.mp h2 with h3 | h3
      · exact Or.inl h3
      · exact Or.inr ⟨g, List.mem_cons_self .., h3.symm⟩
    · exact Or.inr ⟨f, List.mem_cons_of_mem _ hf, hk⟩

theorem trivyPassFrom_marked : ∀ (l : List Finding) (st : MergeState) (i : Nat),
    i + l.length = st.trivyObjs.length →
    (∀ g ∈ st.trivyObjs.take i, g.found_by = ["trivy"]) →
    ∀ g ∈ (trivyPassFrom st i l).trivyObjs, g.found_by = ["trivy"] := by
  intro l
  induction l with
  | nil =>
    intro st i hlen htake g hg
    have hi : i = st.trivyObjs.length := by simpa using hlen
    apply htake
    rw [hi, List.take_length]
    exact hg
  | cons f rest ih =>
    intro st i hlen htake
    have hlt : i < st.trivyObjs.length := by
      simp only [List.length_cons] at hlen; omega
    rw [trivyPassFrom]
    apply ih (trivyStep st i f) (i + 1)
    · simp only [trivyStep, List.length_set]
      simp only [List.length_cons] at hlen
      omega
    · intro g hg
      simp only [trivyStep] at hg
      rw [take_succ_set _ _ _ hlt] at hg
      rcases List.mem_append.mp hg with hg2 | hg2
      · exact htake g hg2
      · rw [List.mem_singleton] at hg2
        subst hg2
        rfl

theorem mergeInv_of_pass1 {st : MergeState} {i : Nat} (h : Pass1Inv st i) :
    MergeInv st := by
  refine ⟨h.1, ?_, ?_⟩
  · intro e he
    obtain ⟨i', _, _, _, hkey, _⟩ := h.2 e he
    exact hkey
  · intro e he
    obtain ⟨i', href, _, hlen, _, _⟩ := h.2 e he
    rw [href]
    exact hlen

theorem fresh_of_pass1 {st : MergeState} {i j : Nat} (h : Pass1Inv st i) :
    Fresh st j := by
  intro e he j' hj'
  obtain ⟨i', href, _⟩ := h.2 e he
  rw [href] at hj'
  cases hj'

theorem grypePassFrom_heads : ∀ (l : List Finding) (st : MergeState) (j : Nat),
    MergeInv st → Fresh st j → j + l.length = st.grypeObjs.length →
    (∀ g ∈ st.trivyObjs, g.found_by.head? = some "trivy") →
    ∀ g ∈ (grypePassFrom st j l).trivyObjs, g.found_by.head? = some "trivy" := by
  intro l
  induction l with
  | nil => intro st j _ _ _ hheads g hg; exact hheads g hg
  | cons v rest ih =>
    intro st j hinv hfresh hlen hheads
    have hj : dictGet? st.merged (create_vuln_key v) = none →
        j < st.grypeObjs.length := by
      intro _
      simp only [List.length_cons] at hlen
      omega
    obtain ⟨hinv2, hfresh2, hlenT, hlenG⟩ := grypeStep_inv hinv hfresh hj
    rw [grypePassFrom]
    apply ih (grypeStep st j v) (j + 1) hinv2 hfresh2
    · rw [hlenG]
      simp only [List.length_cons] at hlen
      omega
    · intro g hg
      rcases hl : dictGet? st.merged (create_vuln_key v) with _ | r0
      · rw [grypeStep_none hl] at hg
        exact hheads g hg
      · rw [grypeStep_some hl] at hg
        rcases r0 with i | j0
        · simp only [MergeState.write] at hg
          rcases List.mem_or_eq_of_mem_set hg with hg2 | hg2
          · exact hheads g hg2
          · subst hg2
            have href : RefOk st (Sum.inl i) :=
              hinv.refOk _ (mem_of_dictGet?_eq_some hl)
            have hi : i < st.trivyObjs.length := href
            have hold : (st.trivyObjs.getD i {}).found_by.head? = some "trivy" :=
              hheads (st.trivyObjs.getD i {}) (getD_mem hi)
            rw [mergeInto_found_by, List.head?_append]
            simp only [MergeState.deref]
            rw [hold]
            rfl
        · simp only [MergeState.write] at hg
          exact hheads g hg

/-! ### Claim C8 — `merge_vulnerabilities` mutates its inputs -/

/-- C8, counterexample: `merge_vulnerabilities` sets `found_by` on the
input finding objects themselves.  After merging a one-element trivy list
with an empty grype list, the trivy input object has `found_by =
["trivy"]`, differing from its pre-call value — the inputs are not left
unchanged. -/
theorem C8_counterexample :
    (merge_vulnerabilities [{ id := "CVE-1", package := "p", version := "1" }]
      []).trivyFinal =
      [{ id := "CVE-1", package := "p", version := "1", found_by := ["trivy"] }] ∧
    ({ id := "CVE-1", package := "p", version := "1", found_by := ["trivy"] } : Finding) ≠
      { id := "CVE-1", package := "p", version := "1" } := by decide

/-- C8, amended: `merge_vulnerabilities` mutates the source findings in
place: after the call every finding object of the first (trivy) input
sequence has a `found_by` list starting with `"trivy"` — assigned during
the first loop and only ever extended by in-place merges — rather than its
pre-call value. -/
theorem C8_amended (trivy grype : List Finding) :
    ∀ g ∈ (merge_vulnerabilities trivy grype).trivyFinal,
      g.found_by.head? = some "trivy" := by
  intro g hg
  simp only [merge_vulnerabilities] at hg
  have hinv0 : Pass1Inv
      ({ trivyObjs := trivy, grypeObjs := grype, merged := [],
         both := 0, grype_only := 0 } : MergeState) 0 :=
    ⟨List.nodup_nil, fun e he => absurd he (List.not_mem_nil e)⟩
  obtain ⟨hP1, hlen1, hg1, _, _⟩ :=
    trivyPassFrom_pass1 trivy _ 0 hinv0 (by simp)
  have hmarked := trivyPassFrom_marked trivy
    ({ trivyObjs := trivy, grypeObjs := grype, merged := [],
       both := 0, grype_only := 0 } : MergeState) 0 (by simp) (by simp)
  refine grypePassFrom_heads grype _ 0 (mergeInv_of_pass1 hP1)
    (fresh_of_pass1 hP1) ?_ ?_ g hg
  · rw [hg1]
    simp
  · intro g2 hg2
    rw [hmarked g2 hg2]
    rfl

/-- Witness for `C8_amended` at a concrete one-element input. -/
theorem C8_amended_witness :
    (({ id := "CVE-1", package := "p", version := "1", found_by := ["trivy"] } : Finding) ∈
      (merge_vulnerabilities [{ id := "CVE-1", package := "p", version := "1" }]
        []).trivyFinal) ∧
    ({ id := "CVE-1", package := "p", version := "1",
       found_by := ["trivy"] } : Finding).found_by.head? = some "trivy" :=
  ⟨by decide,
   C8_amended [{ id := "CVE-1", package := "p", version := "1" }] [] _ (by decide)⟩

/-! ### Claim C5 — merge idempotence -/

theorem write_counters (st : MergeState) (r : MergeRef) (f : Finding) :
    (st.write r f).both = st.both ∧ (st.write r f).grype_only = st.grype_only := by
  cases r <;> exact ⟨rfl, rfl⟩

/-- The grype loop when every incoming key is already stored: the `merged`
dictionary and `grype_only` are unchanged, `both` grows by the number of
findings, and every stored entry whose key occurs in the list ends up with
`"grype"` in its object's `found_by`. -/
theorem grypePassFrom_allPresent : ∀ (l : List Finding) (st : MergeState) (j : Nat),
    MergeInv st → Fresh st j →
    (∀ f ∈ l, create_vuln_key f ∈ st.merged.map Prod.fst) →
    (grypePassFrom st j l).merged = st.merged ∧
    (grypePassFrom st j l).both = st.both + l.length ∧
    (grypePassFrom st j l).grype_only = st.grype_only ∧
    MergeInv (grypePassFrom st j l) ∧
    (∀ e ∈ st.merged,
      ("grype" ∈ (st.deref e.2).found_by ∨ ∃ f ∈ l, create_vuln_key f = e.1) →
      "grype" ∈ ((grypePassFrom st j l).deref e.2).found_by) := by
  intro l
  induction l with
  | nil =>
    intro st j hinv _ _
    refine ⟨rfl, by simp [grypePassFrom], rfl, hinv, ?_⟩
    intro e he h
    rcases h with h | ⟨f, hf, _⟩
    · exact h
    · simp at hf
  | cons v rest ih =>
    intro st j hinv hfresh hall
    have hk0 : create_vuln_key v ∈ st.merged.map Prod.fst :=
      hall v (List.mem_cons_self ..)
    obtain ⟨r0, hl⟩ := Option.isSome_iff_exists.mp (dictGet?_isSome_iff.mpr hk0)
    have hmerged : (grypeStep st j v).merged = st.merged := by
      rw [grypeStep_some hl, write_merged]
    have hboth : (grypeStep st j v).both = st.both + 1 := by
      rw [grypeStep_some hl]
      show (st.write r0 (mergeInto (st.deref r0) v)).both + 1 = st.both + 1
      rw [(write_counters st r0 _).1]
    have hgo : (grypeStep st j v).grype_only = st.grype_only := by
      rw [grypeStep_some hl]
      show (st.write r0 (mergeInto (st.deref r0) v)).grype_only = st.grype_only
      exact (write_counters st r0 _).2
    obtain ⟨hinv2, hfresh2, _, _⟩ := grypeStep_inv hinv hfresh
      (fun hn => by rw [hl] at hn; cases hn)
    have hall2 : ∀ f ∈ rest,
        create_vuln_key f ∈ (grypeStep st j v).merged.map Prod.fst := by
      rw [hmerged]
      exact fun f hf => hall f (List.mem_cons_of_mem _ hf)
    obtain ⟨ihm, ihb, ihg, ihinv, ihd⟩ := ih (grypeStep st j v) (j + 1) hinv2 hfresh2 hall2
    rw [grypePassFrom]
    refine ⟨?_, ?_, ?_, ihinv, ?_⟩
    · rw [ihm, hmerged]
    · rw [ihb, hboth]
      simp only [List.length_cons]
      omega
    · rw [ihg, hgo]
    · intro e he hcase
      rcases grypeStep_deref hinv hfresh he with ⟨hkeq, hd⟩ | ⟨hkne, hd⟩
      · apply ihd e (by rw [hmerged]; exact he)
        left
        rw [hd, mergeInto_found_by]
        exact List.mem_append.mpr (Or.inr (by simp))
      · apply ihd e (by rw [hmerged]; exact he)
        rcases hcase with hcase | ⟨f, hf, hkey⟩
        · left
          rw [hd]
          exact hcase
        · rcases List.mem_cons.mp hf with rfl | hf2
          · exact absurd hkey hkne
          · exact Or.inr ⟨f, hf2, hkey⟩

/-- C5: merging a finding list with itself yields no two entries sharing a
merge key, a found-by-both count equal to the length of the list, and
`trivy_only = grype_only = 0`. -/
theorem C5_merge_idempotence (S : List Finding) :
    ((merge_vulnerabilities S S).mergedList.map create_vuln_key).Nodup ∧
    (merge_vulnerabilities S S).both = S.length ∧
    (merge_vulnerabilities S S).trivy_only = 0 ∧
    (merge_vulnerabilities S S).grype_only = 0 := by
  simp only [merge_vulnerabilities]
  set st0 : MergeState :=
    { trivyObjs := S, grypeObjs := S, merged := [], both := 0, grype_only := 0 }
    with hst0
  set st1 : MergeState := trivyPassFrom st0 0 S with hst1
  set st2 : MergeState := grypePassFrom st1 0 S with hst2
  have hinv0 : Pass1Inv st0 0 :=
    ⟨List.nodup_nil, fun e he => absurd he (List.not_mem_nil e)⟩
  obtain ⟨hP1, hlen1, _, hb1, hgo1⟩ := trivyPassFrom_pass1 S st0 0 hinv0 (by simp)
  have hall : ∀ f ∈ S, create_vuln_key f ∈ st1.merged.map Prod.fst :=
    fun f hf => trivyPassFrom_keys_of_mem S st0 0 hf
  obtain ⟨hm, hb, hgo, hinv2, hderef⟩ :=
    grypePassFrom_allPresent S st1 0 (mergeInv_of_pass1 hP1) (fresh_of_pass1 hP1) hall
  refine ⟨?_, ?_, ?_, ?_⟩
  · rw [List.map_map]
    have heq : st2.merged.map (create_vuln_key ∘ fun e => st2.deref e.2) =
        st2.merged.map Prod.fst :=
      List.map_congr_left (fun e he => hinv2.keyOk e he)
    rw [heq]
    exact hm ▸ hP1.1
  · rw [hb, hb1]
    simp
  · rw [List.length_eq_zero, List.filter_eq_nil_iff]
    intro x hx
    obtain ⟨e, he, rfl⟩ := List.mem_map.mp hx
    have he1 : e ∈ st1.merged := hm ▸ he
    have hkey : ∃ f ∈ S, create_vuln_key f = e.1 := by
      rcases trivyPassFrom_keys_src S st0 0 (List.mem_map.mpr ⟨e, he1, rfl⟩) with h | h
      · simp [hst0] at h
      · exact h
    have hgr : "grype" ∈ (st2.deref e.2).found_by :=
      hderef e he1 (Or.inr hkey)
    intro hfb
    rw [decide_eq_true_iff] at hfb
    rw [hfb] at hgr
    simp at hgr
  · rw [hgo, hgo1]

/-! ### Claim C7 — shape of `found_by` after the merge -/

/-- The grype loop keeps every stored object's `found_by` in one of the
three discovery-ordered, duplicate-free shapes, provided the incoming
keys are pairwise distinct. -/
theorem grypePassFrom_found_by : ∀ (l : List Finding) (st : MergeState) (j : Nat),
    MergeInv st → Fresh st j → j + l.length = st.grypeObjs.length →
    (l.map create_vuln_key).Nodup →
    (∀ e ∈ st.merged,
      ((st.deref e.2).found_by = ["trivy"] ∨ (st.deref e.2).found_by = ["grype"] ∨
        (st.deref e.2).found_by = ["trivy", "grype"]) ∧
      ("grype" ∈ (st.deref e.2).found_by → e.1 ∉ l.map create_vuln_key)) →
    ∀ e ∈ (grypePassFrom st j l).merged,
      ((grypePassFrom st j l).deref e.2).found_by = ["trivy"] ∨
      ((grypePassFrom st j l).deref e.2).found_by = ["grype"] ∨
      ((grypePassFrom st j l).deref e.2).found_by = ["trivy", "grype"] := by
  intro l
  induction l with
  | nil =>
    intro st j _ _ _ _ hfb e he
    exact (hfb e he).1
  | cons v rest ih =>
    intro st j hinv hfresh hlen hgnd hfb
    have hj : dictGet? st.merged (create_vuln_key v) = none →
        j < st.grypeObjs.length := by
      intro _
      simp only [List.length_cons] at hlen
      omega
    obtain ⟨hinv2, hfresh2, _, hlenG⟩ := grypeStep_inv hinv hfresh hj
    rw [List.map_cons] at hgnd
    have hnd1 := (List.nodup_cons.mp hgnd).1
    have hnd2 := (List.nodup_cons.mp hgnd).2
    rw [grypePassFrom]
    apply ih (grypeStep st j v) (j + 1) hinv2 hfresh2
    · rw [hlenG]
      simp only [List.length_cons] at hlen
      omega
    · exact hnd2
    · intro e he
      rcases hl : dictGet? st.merged (create_vuln_key v) with _ | r0
      · rw [grypeStep_none hl] at he
        simp only at he
        rcases List.mem_append.mp he with he2 | he2
        · have hold := hfb e he2
          rcases grypeStep_deref hinv hfresh he2 with ⟨hkeq, _⟩ | ⟨_, hd⟩
          · exact absurd (hkeq ▸ List.mem_map.mpr ⟨e, he2, rfl⟩)
              (dictGet?_eq_none_iff.mp hl)
          · rw [hd]
            refine ⟨hold.1, fun hgr => ?_⟩
            have := hold.2 hgr
            simp only [List.map_cons, List.mem_cons] at this
            push_neg at this
            exact this.2
        · rw [List.mem_singleton] at he2
          subst he2
          have hderefNew : (grypeStep st j v).deref (Sum.inr j) =
              { v with found_by := ["grype"] } := by
            rw [grypeStep_none hl]
            simp only [MergeState.deref]
            exact getD_set_self _ _ (hj hl)
          rw [hderefNew]
          refine ⟨Or.inr (Or.inl rfl), fun _ => ?_⟩
          exact hnd1
      · have hmerged : (grypeStep st j v).merged = st.merged := by
          rw [grypeStep_some hl, write_merged]
        rw [hmerged] at he
        have hold := hfb e he
        rcases grypeStep_deref hinv hfresh he with ⟨hkeq, hd⟩ | ⟨hkne, hd⟩
        · have hng : "grype" ∉ (st.deref e.2).found_by := by
            intro hgr
            exact (hold.2 hgr) (hkeq ▸ List.mem_map.mpr ⟨v, List.mem_cons_self .., rfl⟩)
          have htr : (st.deref e.2).found_by = ["trivy"] := by
            rcases hold.1 with h | h | h
            · exact h
            · rw [h] at hng
              simp at hng
            · rw [h] at hng
              simp at hng
          rw [hd, mergeInto_found_by, htr]
          refine ⟨Or.inr (Or.inr rfl), fun _ => ?_⟩
          exact hkeq ▸ hnd1
        · rw [hd]
          refine ⟨hold.1, fun hgr => ?_⟩
          have := hold.2 hgr
          simp only [List.map_cons, List.mem_cons] at this
          push_neg at this
          exact this.2

/-- C7, counterexample: when the second scanner's sequence contains two
findings with equal merge keys (both matching a trivy finding), the merged
entry's `found_by` is `["trivy", "grype", "grype"]` — the scanner name
`"grype"` is appended once per duplicate, so `found_by` is not
duplicate-free. -/
theorem C7_counterexample :
    (merge_vulnerabilities
      [{ id := "CVE-1", package := "p", version := "1" }]
      [{ id := "CVE-1", package := "p", version := "1", source := "grype" },
       { id := "CVE-1", package := "p", version := "1", source := "grype" }]).mergedList.map
      (fun v => v.found_by) = [["trivy", "grype", "grype"]] ∧
    ¬(["trivy", "grype", "grype"] : List String).Nodup := by decide

/-- C7, amended: when the second scanner's sequence has pairwise-distinct
merge keys, every output finding's `found_by` is one of `["trivy"]`,
`["grype"]`, `["trivy", "grype"]` — duplicate-free and in discovery order
(first scanner before second).  With duplicate keys inside the second
scanner's input, `"grype"` is appended once per duplicate and `found_by`
contains duplicates (`C7_counterexample`). -/
theorem C7_amended (trivy grype : List Finding)
    (hgnd : (grype.map create_vuln_key).Nodup) :
    ∀ v ∈ (merge_vulnerabilities trivy grype).mergedList,
      (v.found_by = ["trivy"] ∨ v.found_by = ["grype"] ∨
        v.found_by = ["trivy", "grype"]) ∧ v.found_by.Nodup := by
  intro v hv
  simp only [merge_vulnerabilities] at hv
  set st0 : MergeState :=
    { trivyObjs := trivy, grypeObjs := grype, merged := [],
      both := 0, grype_only := 0 }
    with hst0
  set st1 : MergeState := trivyPassFrom st0 0 trivy with hst1
  set st2 : MergeState := grypePassFrom st1 0 grype with hst2
  have hinv0 : Pass1Inv st0 0 :=
    ⟨List.nodup_nil, fun e he => absurd he (List.not_mem_nil e)⟩
  obtain ⟨hP1, _, hg1, _, _⟩ := trivyPassFrom_pass1 trivy st0 0 hinv0 (by simp)
  obtain ⟨e, he, rfl⟩ := List.mem_map.mp hv
  have hdisj := grypePassFrom_found_by grype st1 0 (mergeInv_of_pass1 hP1)
    (fresh_of_pass1 hP1) (by rw [hg1]; simp) hgnd ?_ e he
  · refine ⟨hdisj, ?_⟩
    rcases hdisj with h | h | h <;> rw [h] <;> decide
  · intro e2 he2
    obtain ⟨i', _, _, _, _, hfb⟩ := hP1.2 e2 he2
    refine ⟨Or.inl hfb, fun hgr => ?_⟩
    rw [hfb] at hgr
    simp at hgr

/-- A concrete grype finding for exercising `C7_amended`. -/
def c7grypeFinding : Finding :=
  { id := "CVE-2", package := "q", version := "2", source := "grype" }

/-- Witness for `C7_amended` at a concrete input with distinct keys. -/
theorem C7_amended_witness :
    (([c7grypeFinding] : List Finding).map create_vuln_key).Nodup ∧
    (({ c7grypeFinding with found_by := ["grype"] } : Finding) ∈
      (merge_vulnerabilities [] [c7grypeFinding]).mergedList) ∧
    ((({ c7grypeFinding with found_by := ["grype"] } : Finding).found_by = ["trivy"] ∨
      ({ c7grypeFinding with found_by := ["grype"] } : Finding).found_by = ["grype"] ∨
      ({ c7grypeFinding with found_by := ["grype"] } : Finding).found_by =
        ["trivy", "grype"]) ∧
     ({ c7grypeFinding with found_by := ["grype"] } : Finding).found_by.Nodup) :=
  ⟨by decide, by decide,
   C7_amended [] [c7grypeFinding] (by decide) _ (by decide)⟩
